import Mathlib

/-!
Verification of the occupancy-grid path planner (`testy.py`) and the GPIO
output handler (`update_output_handler.py`) of the Grant_Rektora repository.

The Python code is shallowly embedded:
* a grid is a `List (List Nat)` (`0` = free, anything else = blocked);
* a cell is a pair of `Int` coordinates (Python list indices are checked
  to be in `0 ≤ · < len` before every access the planner performs);
* the floating-point edge weights `1` and `math.sqrt(2)` are represented
  exactly: a weight or accumulated distance is a pair `(a, b) : Nat × Nat`
  standing for the real number `a + b * √2`, and the comparison used by the
  relaxation is proved equivalent to the real-number comparison
  (`wlt_iff_toReal`).  All distances the program manipulates have this
  form, and on them exact comparison agrees with the reference behaviour;
* `np.inf` is `none : Option (Nat × Nat)`;
* Python exceptions (`ValueError`) are `Except.error` carrying the message;
* `RoadFinder` is a structure, and the mutation of `self.path` is modelled
  by returning the updated structure from `find_path`;
* the unbounded `while` loop of `__reconstruct_path` is given
  `num_vertices + 1` fuel; fuel exhaustion (`none`) is proved unreachable
  for predecessor arrays produced by the relaxation, which matches the
  Python loop (it could fail to terminate only on a cyclic predecessor
  array, which relaxation never yields).
-/

deriving instance DecidableEq for Except

namespace Rektora

/-- A grid cell `(row, col)`; Python tuples of ints. -/
abbrev Cell : Type := Int × Int

/-- The occupancy grid `lidar_map`: `0` is free, non-zero is blocked. -/
abbrev Grid : Type := List (List Nat)

/-- An exact edge weight / accumulated distance: `(a, b)` stands for the
real number `a + b * √2`.  Every weight the planner uses (`1` and
`math.sqrt(2)`) and every finite distance it accumulates has this form. -/
abbrev W : Type := Nat × Nat

/-- Addition of exact distances (Python `distances[u] + weight`). -/
def addW (a b : W) : W := (a.1 + b.1, a.2 + b.2)

/-- Exact strict comparison `a.1 + a.2√2 < b.1 + b.2√2`, decided over the
integers: with `d = a.1 - b.1` and `e = b.2 - a.2` it holds iff `d < e√2`. -/
def wlt (a b : W) : Bool :=
  let d : Int := (a.1 : Int) - (b.1 : Int)
  let e : Int := (b.2 : Int) - (a.2 : Int)
  if 0 ≤ e then decide (d < 0) || decide (d * d < 2 * (e * e))
  else decide (d < 0) && decide (2 * (e * e) < d * d)

/-- The real number an exact distance denotes. -/
noncomputable def toReal (a : W) : ℝ := (a.1 : ℝ) + (a.2 : ℝ) * Real.sqrt 2

/-- List indexing with a default (Python `l[i]` on the in-range indices the
planner uses; the default is never reached there). -/
def nthD {α : Type} : List α → Nat → α → α
  | [], _, d => d
  | a :: _, 0, _ => a
  | _ :: t, i + 1, d => nthD t i d

/-- Python `list.index`: index of the first occurrence (all uses in the
program are guarded by membership tests). -/
def list_index {α : Type} [DecidableEq α] : List α → α → Nat
  | [], _ => 0
  | a :: t, x => if a = x then 0 else list_index t x + 1

/-- Python `enumerate` starting at `n`. -/
def enumFromN {α : Type} : Nat → List α → List (Nat × α)
  | _, [] => []
  | n, a :: t => (n, a) :: enumFromN (n + 1) t

/-- The free cells of one grid row `i` (Python
`[(i, j) for j, val in enumerate(row) if not val]`). -/
def rowKeys (i : Nat) (row : List Nat) : List Cell :=
  (enumFromN 0 row).filterMap
    (fun jv => if jv.2 = 0 then some ((i : Int), (jv.1 : Int)) else none)

/-- The vertex list: free cells in row-major order (Python `keys` in
`__create_graph`). -/
def keys (g : Grid) : List Cell :=
  ((enumFromN 0 g).map (fun ir => rowKeys ir.1 ir.2)).flatten

/-- `RoadFinder.__is_path_clear`: the neighbour `(x+dx, y+dy)` is inside the
grid (row bound `len(map)`, column bound `len(map[0])`) and free.
(For a ragged grid whose row `nx` is shorter than `len(map[0])` the Python
code would raise `IndexError` on the final access; the claims are stated
over rectangular grids, where that access is always in range.) -/
def is_path_clear (g : Grid) (c : Cell) (dx dy : Int) : Bool :=
  let nx := c.1 + dx
  let ny := c.2 + dy
  if 0 ≤ nx ∧ nx < (g.length : Int) ∧ 0 ≤ ny ∧ ny < ((nthD g 0 []).length : Int) then
    decide (nthD (nthD g nx.toNat []) ny.toNat 1 = 0)
  else false

/-- The eight neighbour offsets, in the fixed source order. -/
def neighborOffsets : List (Int × Int) :=
  [(-1, 0), (1, 0), (0, -1), (0, 1), (-1, -1), (-1, 1), (1, -1), (1, 1)]

/-- The weight of a move: `1` if axis-aligned (`abs(dx) + abs(dy) == 1`),
else `math.sqrt(2)`. -/
def moveWeight (dx dy : Int) : W :=
  if dx.natAbs + dy.natAbs = 1 then (1, 0) else (0, 1)

/-- The adjacency row built for the vertex at cell `c`: for each offset, the
neighbour index is kept iff the neighbour is a known vertex
(`(nx, ny) in key_to_index`) and `__is_path_clear` holds. -/
def rowNbrs (g : Grid) (ks : List Cell) (c : Cell) : List Nat :=
  neighborOffsets.filterMap (fun d =>
    if ((c.1 + d.1, c.2 + d.2) : Cell) ∈ ks ∧ is_path_clear g c d.1 d.2 = true then
      some (list_index ks (c.1 + d.1, c.2 + d.2))
    else none)

/-- The edge-weight entries contributed by the vertex `idx` at cell `c`
(the `edge_weights[(idx, neighbor_index)] = ...` assignments). -/
def rowEdges (g : Grid) (ks : List Cell) (idx : Nat) (c : Cell) :
    List ((Nat × Nat) × W) :=
  neighborOffsets.filterMap (fun d =>
    if ((c.1 + d.1, c.2 + d.2) : Cell) ∈ ks ∧ is_path_clear g c d.1 d.2 = true then
      some ((idx, list_index ks (c.1 + d.1, c.2 + d.2)), moveWeight d.1 d.2)
    else none)

/-- The adjacency list `graph` of `__create_graph`, indexed by vertex. -/
def graphOf (g : Grid) : List (List Nat) :=
  (enumFromN 0 (keys g)).map (fun ic => rowNbrs g (keys g) ic.2)

/-- The edge-weight table `edge_weights` of `__create_graph`, as the
association list of its insertions in order. -/
def ewsOf (g : Grid) : List ((Nat × Nat) × W) :=
  ((enumFromN 0 (keys g)).map (fun ic => rowEdges g (keys g) ic.1 ic.2)).flatten

/-- `RoadFinder.__create_graph`: raises
`ValueError("No valid path in the lidar map")` when there is no free cell,
otherwise returns the graph, the vertex list and the edge weights. -/
def create_graph (g : Grid) :
    Except String (List (List Nat) × List Cell × List ((Nat × Nat) × W)) :=
  if (keys g).isEmpty then Except.error "No valid path in the lidar map"
  else Except.ok (graphOf g, keys g, ewsOf g)

/-- Lookup in the edge-weight dictionary (`edge_weights[(u, v)]`; every
lookup the solver performs is for an edge present in the table). -/
def wlookup : List ((Nat × Nat) × W) → Nat × Nat → Option W
  | [], _ => none
  | e :: t, k => if e.1 = k then some e.2 else wlookup t k

/-- `distances[u] + weight` with `np.inf = none`. -/
def addDW (d : Option W) (w : W) : Option W :=
  match d with
  | none => none
  | some x => some (addW x w)

/-- The comparison `a > b` on distances, with `none = np.inf`
(`inf > inf` is false, `inf > finite` is true, `finite > inf` is false). -/
def dGT (a b : Option W) : Bool :=
  match a, b with
  | none, none => false
  | none, some _ => true
  | some _, none => false
  | some x, some y => wlt y x

/-- The mutable state of `__relax_edges`: the `distances` and
`predecessor` arrays (`-1` = no predecessor). -/
abbrev RState : Type := List (Option W) × List Int

/-- The origin cell, used as an irrelevant `nthD` default. -/
def cell0 : Cell := ((0 : Int), (0 : Int))

/-- One relaxation of the edge `(u, v)`:
`if distances[v] > distances[u] + weight: update`. -/
def relaxEdge (ews : List ((Nat × Nat) × W)) (st : RState) (u v : Nat) : RState :=
  if dGT (nthD st.1 v none)
      (addDW (nthD st.1 u none) ((wlookup ews (u, v)).getD (0, 0))) = true then
    (st.1.set v (addDW (nthD st.1 u none) ((wlookup ews (u, v)).getD (0, 0))),
      st.2.set v (u : Int))
  else st

/-- The inner loop `for v in graph[u]`. -/
def relaxRow (graph : List (List Nat)) (ews : List ((Nat × Nat) × W))
    (st : RState) (u : Nat) : RState :=
  (nthD graph u []).foldl (fun s v => relaxEdge ews s u v) st

/-- One pass `for u in range(num_vertices)`. -/
def relaxPass (graph : List (List Nat)) (ews : List ((Nat × Nat) × W))
    (st : RState) : RState :=
  (List.range graph.length).foldl (relaxRow graph ews) st

/-- `RoadFinder.__relax_edges`: `num_vertices - 1` passes over all edges. -/
def relax_edges (graph : List (List Nat)) (ews : List ((Nat × Nat) × W))
    (distances : List (Option W)) (predecessor : List Int) : RState :=
  (List.range (graph.length - 1)).foldl (fun st _ => relaxPass graph ews st)
    (distances, predecessor)

/-- The `while` loop of `RoadFinder.__reconstruct_path`, with fuel.  `none`
stands for a non-terminating run of the Python loop (proved unreachable for
relaxation output), `some []` is its `return []` when a `-1` predecessor is
met, and the accumulator holds the `path_indices` list reversed, so the
final `some ((start_index : Int) :: racc)` is the reversed-and-completed
`path_indices` the Python function returns. -/
def reconstructLoop (predecessor : List Int) (start_index : Nat) :
    Nat → Int → List Int → Option (List Int)
  | 0, _, _ => none
  | fuel + 1, current, racc =>
    if current = (start_index : Int) then some ((start_index : Int) :: racc)
    else
      let racc' := current :: racc
      let nxt := nthD predecessor current.toNat (-1)
      if nxt = -1 then some []
      else reconstructLoop predecessor start_index fuel nxt racc'

/-- The state after initialising `distances` (all `inf` except
`distances[start_index] = 0`) and `predecessor` (all `-1`) and running
`__relax_edges`. -/
def bf_state (graph : List (List Nat)) (ews : List ((Nat × Nat) × W))
    (si : Nat) : RState :=
  relax_edges graph ews
    ((List.replicate graph.length (none : Option W)).set si (some (0, 0)))
    (List.replicate graph.length (-1 : Int))

/-- The `LidarMap` wrapper class. -/
structure LidarMap : Type where
  map : Grid
deriving DecidableEq, Repr

/-- The `RoadFinder` planner state (the unused `car_length`/`car_width`
configuration floats are not consumed by any algorithm and are omitted). -/
structure RoadFinder : Type where
  lidar_map : Grid
  starting_point : Cell
  ending_point : Cell
  path : List Cell
deriving DecidableEq, Repr

/-- `RoadFinder.__init__`: stores the map and the endpoints and sets
`self.path = []`.  It performs no validation beyond the duck-typed check
that the argument has a `map` attribute (always true of a `LidarMap`);
in particular it does not inspect the endpoints. -/
def RoadFinder.init (m : LidarMap) (s e : Cell) : RoadFinder :=
  { lidar_map := m.map, starting_point := s, ending_point := e, path := [] }

/-- `RoadFinder.__bellman_ford`.  Returns the path and the updated planner
(`self.path` is assigned only on the success branch).  The local variables
`start_index`, `end_index` and the relaxed arrays (`bf_state`) are inlined. -/
def bellman_ford (rf : RoadFinder) (graph : List (List Nat)) (ks : List Cell)
    (ews : List ((Nat × Nat) × W)) : Except String (List Cell × RoadFinder) :=
  if rf.starting_point ∈ ks ∧ rf.ending_point ∈ ks then
    if nthD (bf_state graph ews (list_index ks rf.starting_point)).1
        (list_index ks rf.ending_point) none = none then Except.ok ([], rf)
    else
      match reconstructLoop (bf_state graph ews (list_index ks rf.starting_point)).2
          (list_index ks rf.starting_point) (graph.length + 1)
          ((list_index ks rf.ending_point : Nat) : Int) [] with
      | none => Except.error "reconstruction loop failed to terminate"
      | some [] => Except.ok ([], rf)
      | some idxs =>
        Except.ok (idxs.map (fun i => nthD ks i.toNat cell0),
          { rf with path := idxs.map (fun i => nthD ks i.toNat cell0) })
  else Except.error "Starting or ending point is not in the lidar map"

/-- `RoadFinder.find_path`: builds the graph and runs Bellman-Ford. -/
def find_path (rf : RoadFinder) : Except String (List Cell × RoadFinder) :=
  match create_graph rf.lidar_map with
  | Except.error msg => Except.error msg
  | Except.ok (graph, ks, ews) => bellman_ford rf graph ks ews

/-- Python `str((i, j))` for a cell. -/
def cellStr (c : Cell) : String :=
  "(" ++ toString c.1 ++ ", " ++ toString c.2 ++ ")"

/-- `RoadFinder.__repr__`: the stored path joined by arrows. -/
def RoadFinder.render (rf : RoadFinder) : String :=
  "[" ++ String.intercalate " -> " (rf.path.map cellStr) ++ "]"

/-- Modelled from the spec: the `CommandArray.GO_FORWARD` message constant
(the `interfaces.msg` module is not among the sources); the five command
codes are distinct integers. -/
def GO_FORWARD : Int := 1

/-- Modelled from the spec: the `CommandArray.GO_LEFT` constant. -/
def GO_LEFT : Int := 2

/-- Modelled from the spec: the `CommandArray.GO_RIGHT` constant. -/
def GO_RIGHT : Int := 3

/-- Modelled from the spec: the `CommandArray.GO_BACKWARD` constant. -/
def GO_BACKWARD : Int := 4

/-- Modelled from the spec: the `CommandArray.STOP` constant, distinct from
the four output-line codes. -/
def STOP : Int := 0

/-- Modelled from the spec: `GPIO.LOW` as a boolean line level. -/
def LOW : Bool := false

/-- Modelled from the spec: `GPIO.HIGH` as a boolean line level. -/
def HIGH : Bool := true

/-- The `self._pins` list of `UpdateOutputHandler.__init__`. -/
def pins : List Int := [GO_FORWARD, GO_LEFT, GO_RIGHT, GO_BACKWARD]

/-- `UpdateOutputHandler.update_output`: returns the pin levels written by
`GPIO.output` (one `(pin, level)` pair per pin, in `self._pins` order,
matching the insertion order of the `pin_states` dict) together with a flag
recording whether the `Invalid command` diagnostic was printed. -/
def update_output (command : Int) : List (Int × Bool) × Bool :=
  let pin_states := pins.map (fun p => (p, LOW))
  if command ∈ pins then
    (pin_states.map (fun pv => if pv.1 = command then (pv.1, HIGH) else pv), false)
  else if command ≠ STOP then (pin_states, true)
  else (pin_states, false)

/-! ### Specification-side notions

These follow the spec's vocabulary (bounds, free cells, 8-neighbourhood,
reachability) and are used to state the claims; the theorems relate them to
the embedded program. -/

/-- The spec's grid invariant: every row has the length of row `0`. -/
def Rectangular (g : Grid) : Prop :=
  ∀ row ∈ g, row.length = (nthD g 0 []).length

/-- A cell lies within the grid bounds. -/
def inBounds (g : Grid) (c : Cell) : Prop :=
  0 ≤ c.1 ∧ c.1 < (g.length : Int) ∧ 0 ≤ c.2 ∧ c.2 < ((nthD g 0 []).length : Int)

/-- A cell holds value `0`. -/
def freeCell (g : Grid) (c : Cell) : Prop :=
  nthD (nthD g c.1.toNat []) c.2.toNat 1 = 0

/-- `v` is one of the eight neighbours of `u`. -/
def isNbr (u v : Cell) : Prop :=
  (v.1 - u.1, v.2 - u.2) ∈ neighborOffsets

/-- The built graph has the directed edge from cell `b` to cell `c`:
some neighbour offset leads from `b` to `c`, `c` is a known vertex, and
`__is_path_clear` accepts the move. -/
def hasEdge (g : Grid) (b c : Cell) : Prop :=
  ∃ d ∈ neighborOffsets,
    c = (b.1 + d.1, b.2 + d.2) ∧ c ∈ keys g ∧ is_path_clear g b d.1 d.2 = true

/-- 8-connectivity reachability through free cells: the reflexive-transitive
closure of the edge relation. -/
def Reachable (g : Grid) (s c : Cell) : Prop :=
  Relation.ReflTransGen (hasEdge g) s c

instance (g : Grid) : Decidable (Rectangular g) := by
  unfold Rectangular; exact inferInstance

instance (g : Grid) (c : Cell) : Decidable (inBounds g c) := by
  unfold inBounds; exact inferInstance

instance (g : Grid) (c : Cell) : Decidable (freeCell g c) := by
  unfold freeCell; exact inferInstance

instance (u v : Cell) : Decidable (isNbr u v) := by
  unfold isNbr; exact inferInstance

instance (g : Grid) (b c : Cell) : Decidable (hasEdge g b c) := by
  unfold hasEdge; exact inferInstance

/-- The relaxation only assigns finite distances to vertices reachable from
the cell at the start index (scaffolding for the unreachable case). -/
def RInv (g : Grid) (s : Cell) (st : RState) : Prop :=
  ∀ v, v < (keys g).length → nthD st.1 v none ≠ none →
    Reachable g s (nthD (keys g) v cell0)

/-- Reachability with an explicit number of edge steps (scaffolding for the
Bellman-Ford bound: a path of `n` edges yields a finite distance after `n`
relaxation passes). -/
inductive ReachN (g : Grid) (s : Cell) : Cell → Nat → Prop where
  | refl : ReachN g s s 0
  | tail {b c : Cell} {n : Nat} : ReachN g s b n → hasEdge g b c → ReachN g s c (n + 1)

/-- The solver state just before relaxation: `distances` all `inf` except
`0` at the start index, `predecessor` all `-1`. -/
def bfInit (graph : List (List Nat)) (si : Nat) : RState :=
  ((List.replicate graph.length (none : Option W)).set si (some (0, 0)),
    List.replicate graph.length (-1 : Int))

/-- The state after `k` relaxation passes (the `__relax_edges` loop runs
`graph.length - 1` of them). -/
def passesK (graph : List (List Nat)) (ews : List ((Nat × Nat) × W))
    (st0 : RState) (k : Nat) : RState :=
  (List.range k).foldl (fun st _ => relaxPass graph ews st) st0

/-- Strict comparison of distances in which `inf` compares below nothing. -/
def dLT (a b : Option W) : Bool :=
  match a, b with
  | some x, some y => wlt x y
  | _, _ => false

/-- How many of the first `V` distance entries are strictly below entry `v`
(the termination measure of the reconstruction walk). -/
def dsc (st : RState) (V v : Nat) : Nat :=
  ((Finset.range V).filter
    (fun w => dLT (nthD st.1 w none) (nthD st.1 v none) = true)).card

/-- The solver invariant: array lengths are `V`; a vertex with no
predecessor but a finite distance is the start; a vertex with a predecessor
has a finite distance strictly greater than its predecessor's. -/
def BFInv (si V : Nat) (st : RState) : Prop :=
  st.1.length = V ∧ st.2.length = V ∧
    (∀ v, v < V → nthD st.2 v (-1) = -1 → nthD st.1 v none ≠ none → v = si) ∧
    (∀ v, v < V → nthD st.2 v (-1) ≠ -1 →
      ∃ u, u < V ∧ nthD st.2 v (-1) = (u : Int) ∧
        ∃ x y, nthD st.1 u none = some x ∧ nthD st.1 v none = some y ∧
          wlt x y = true)

/-! ### Exact arithmetic: `wlt` agrees with the real-number order -/

theorem sqrt2_pos : (0 : ℝ) < Real.sqrt 2 := Real.sqrt_pos.2 (by norm_num)

theorem sqrt2_mul_self : Real.sqrt 2 * Real.sqrt 2 = 2 :=
  Real.mul_self_sqrt (by norm_num)

theorem int_lt_mul_sqrt2 (d e : Int) :
    ((d : ℝ) < (e : ℝ) * Real.sqrt 2) ↔
      (if 0 ≤ e then (d < 0 ∨ d * d < 2 * (e * e))
       else (d < 0 ∧ 2 * (e * e) < d * d)) := by
  have hs : (0 : ℝ) < Real.sqrt 2 := sqrt2_pos
  have hss : Real.sqrt 2 * Real.sqrt 2 = 2 := sqrt2_mul_self
  by_cases he : 0 ≤ e
  · have he' : (0 : ℝ) ≤ (e : ℝ) := by exact_mod_cast he
    have hes : (0 : ℝ) ≤ (e : ℝ) * Real.sqrt 2 := mul_nonneg he' hs.le
    have hsq : ((e : ℝ) * Real.sqrt 2) * ((e : ℝ) * Real.sqrt 2)
        = 2 * ((e : ℝ) * (e : ℝ)) := by
      rw [mul_mul_mul_comm, hss]; ring
    rw [if_pos he]
    constructor
    · intro h
      by_cases hd : d < 0
      · exact Or.inl hd
      · have hd' : (0 : ℝ) ≤ (d : ℝ) := by
          exact_mod_cast Int.not_lt.1 hd
        refine Or.inr ?_
        have h2 : (d : ℝ) * (d : ℝ)
            < ((e : ℝ) * Real.sqrt 2) * ((e : ℝ) * Real.sqrt 2) :=
          mul_self_lt_mul_self hd' h
        rw [hsq] at h2
        exact_mod_cast h2
    · intro h
      rcases h with hd | hdd
      · have hd' : (d : ℝ) < 0 := by exact_mod_cast hd
        linarith
      · by_cases hd : d < 0
        · have hd' : (d : ℝ) < 0 := by exact_mod_cast hd
          linarith
        · have hd' : (0 : ℝ) ≤ (d : ℝ) := by
            exact_mod_cast Int.not_lt.1 hd
          rw [mul_self_lt_mul_self_iff hd' hes, hsq]
          exact_mod_cast hdd
  · rw [if_neg he]
    push_neg at he
    have he' : (e : ℝ) < 0 := by exact_mod_cast he
    have hes : (e : ℝ) * Real.sqrt 2 < 0 := mul_neg_of_neg_of_pos he' hs
    have hsq : (-((e : ℝ) * Real.sqrt 2)) * (-((e : ℝ) * Real.sqrt 2))
        = 2 * ((e : ℝ) * (e : ℝ)) := by
      have : (-((e : ℝ) * Real.sqrt 2)) * (-((e : ℝ) * Real.sqrt 2))
          = ((e : ℝ) * (e : ℝ)) * (Real.sqrt 2 * Real.sqrt 2) := by ring
      rw [this, hss]; ring
    constructor
    · intro h
      have hd' : (d : ℝ) < 0 := lt_trans h hes
      have hdI : d < 0 := by exact_mod_cast hd'
      refine ⟨hdI, ?_⟩
      have h1 : -((e : ℝ) * Real.sqrt 2) < -(d : ℝ) := by linarith
      have h2 : (0 : ℝ) ≤ -((e : ℝ) * Real.sqrt 2) := by linarith
      have h3 : (-((e : ℝ) * Real.sqrt 2)) * (-((e : ℝ) * Real.sqrt 2))
          < (-(d : ℝ)) * (-(d : ℝ)) := mul_self_lt_mul_self h2 h1
      rw [hsq, show (-(d : ℝ)) * (-(d : ℝ)) = (d : ℝ) * (d : ℝ) by ring] at h3
      exact_mod_cast h3
    · rintro ⟨hd, hdd⟩
      have hd' : (d : ℝ) < 0 := by exact_mod_cast hd
      have h2 : (0 : ℝ) ≤ -((e : ℝ) * Real.sqrt 2) := by linarith
      have h1 : -((e : ℝ) * Real.sqrt 2) < -(d : ℝ) := by
        rw [mul_self_lt_mul_self_iff h2 (by linarith : (0 : ℝ) ≤ -(d : ℝ)), hsq,
          show (-(d : ℝ)) * (-(d : ℝ)) = (d : ℝ) * (d : ℝ) by ring]
        exact_mod_cast hdd
      linarith

theorem wlt_iff_toReal (a b : W) : wlt a b = true ↔ toReal a < toReal b := by
  have key := int_lt_mul_sqrt2 ((a.1 : Int) - (b.1 : Int)) ((b.2 : Int) - (a.2 : Int))
  have main : toReal a < toReal b ↔
      ((((a.1 : Int) - (b.1 : Int) : Int)) : ℝ)
        < ((((b.2 : Int) - (a.2 : Int) : Int)) : ℝ) * Real.sqrt 2 := by
    unfold toReal
    push_cast
    constructor <;> intro h <;> nlinarith [Real.sqrt_nonneg 2]
  rw [main, key]
  unfold wlt
  by_cases h0 : (0 : Int) ≤ (b.2 : Int) - (a.2 : Int)
  · simp [h0]
  · simp [h0]

theorem wlt_trans {a b c : W} (h1 : wlt a b = true) (h2 : wlt b c = true) :
    wlt a c = true := by
  rw [wlt_iff_toReal] at h1 h2 ⊢
  exact lt_trans h1 h2

theorem wlt_irrefl (a : W) : wlt a a ≠ true := fun h =>
  lt_irrefl _ ((wlt_iff_toReal a a).1 h)

theorem toReal_addW (a b : W) : toReal (addW a b) = toReal a + toReal b := by
  unfold toReal addW
  push_cast
  ring

theorem toReal_one : toReal (1, 0) = 1 := by
  unfold toReal; norm_num

theorem toReal_diag : toReal (0, 1) = Real.sqrt 2 := by
  unfold toReal; norm_num

theorem wlt_addW_right (x : W) {w : W} (hw : w = (1, 0) ∨ w = (0, 1)) :
    wlt x (addW x w) = true := by
  rw [wlt_iff_toReal, toReal_addW]
  rcases hw with rfl | rfl
  · rw [toReal_one]; linarith
  · rw [toReal_diag]; linarith [sqrt2_pos]

/-! ### Basic lemmas about the list helpers -/

theorem nthD_set_self {α : Type} {l : List α} {i : Nat} (a d : α)
    (h : i < l.length) : nthD (l.set i a) i d = a := by
  induction l generalizing i with
  | nil => simp at h
  | cons x t ih =>
    cases i with
    | zero => rfl
    | succ n => exact ih (Nat.lt_of_succ_lt_succ (by simpa using h))

theorem nthD_set_ne {α : Type} {l : List α} {i j : Nat} (a d : α)
    (h : i ≠ j) : nthD (l.set i a) j d = nthD l j d := by
  induction l generalizing i j with
  | nil => rfl
  | cons x t ih =>
    cases i with
    | zero =>
      cases j with
      | zero => exact absurd rfl h
      | succ m => rfl
    | succ n =>
      cases j with
      | zero => rfl
      | succ m => exact ih (fun hc => h (by rw [hc]))

theorem nthD_of_length_le {α : Type} {l : List α} {i : Nat} (d : α)
    (h : l.length ≤ i) : nthD l i d = d := by
  induction l generalizing i with
  | nil => rfl
  | cons x t ih =>
    cases i with
    | zero => simp at h
    | succ n => exact ih (Nat.le_of_succ_le_succ (by simpa using h))

theorem nthD_replicate {α : Type} {n i : Nat} (x d : α) (h : i < n) :
    nthD (List.replicate n x) i d = x := by
  induction n generalizing i with
  | zero => simp at h
  | succ m ih =>
    cases i with
    | zero => rfl
    | succ k => exact ih (Nat.lt_of_succ_lt_succ h)

theorem nthD_map {α β : Type} (f : α → β) {l : List α} {i : Nat}
    (dα : α) (dβ : β) (h : i < l.length) :
    nthD (l.map f) i dβ = f (nthD l i dα) := by
  induction l generalizing i with
  | nil => simp at h
  | cons x t ih =>
    cases i with
    | zero => rfl
    | succ n => exact ih (Nat.lt_of_succ_lt_succ (by simpa using h))

theorem list_index_lt {α : Type} [DecidableEq α] {l : List α} {x : α}
    (h : x ∈ l) : list_index l x < l.length := by
  induction l with
  | nil => simp at h
  | cons a t ih =>
    by_cases hax : a = x
    · simp [list_index, hax]
    · have hxt : x ∈ t := by
        rcases List.mem_cons.1 h with h1 | h1
        · exact absurd h1.symm hax
        · exact h1
      simp only [list_index, if_neg hax, List.length_cons]
      exact Nat.succ_lt_succ (ih hxt)

theorem list_index_nthD {α : Type} [DecidableEq α] {l : List α} {x : α}
    (h : x ∈ l) (d : α) : nthD l (list_index l x) d = x := by
  induction l with
  | nil => simp at h
  | cons a t ih =>
    by_cases hax : a = x
    · simp [list_index, hax, nthD]
    · have hxt : x ∈ t := by
        rcases List.mem_cons.1 h with h1 | h1
        · exact absurd h1.symm hax
        · exact h1
      simp only [list_index, if_neg hax]
      exact ih hxt

theorem list_index_of_not_mem {α : Type} [DecidableEq α] {l : List α} {x : α}
    (h : x ∉ l) : list_index l x = l.length := by
  induction l with
  | nil => rfl
  | cons a t ih =>
    have hax : a ≠ x := fun hc => h (by rw [hc]; exact List.mem_cons_self _ _)
    have hxt : x ∉ t := fun hc => h (List.mem_cons_of_mem _ hc)
    simp [list_index, hax, ih hxt]

theorem mem_of_list_index_lt {α : Type} [DecidableEq α] {l : List α} {x : α}
    (h : list_index l x < l.length) : x ∈ l := by
  by_contra hx
  rw [list_index_of_not_mem hx] at h
  exact lt_irrefl _ h

theorem enumFromN_length {α : Type} (n : Nat) (l : List α) :
    (enumFromN n l).length = l.length := by
  induction l generalizing n with
  | nil => rfl
  | cons a t ih => simp [enumFromN, ih]

theorem nthD_enumFromN {α : Type} {l : List α} {i : Nat} (n : Nat) (d : α)
    (dp : Nat × α) (h : i < l.length) :
    nthD (enumFromN n l) i dp = (n + i, nthD l i d) := by
  induction l generalizing n i with
  | nil => simp at h
  | cons a t ih =>
    cases i with
    | zero => simp [enumFromN, nthD]
    | succ k =>
      have hk := @ih k (n + 1) (Nat.lt_of_succ_lt_succ (by simpa using h))
      show nthD (enumFromN (n + 1) t) k dp = (n + (k + 1), nthD t k d)
      rw [hk]
      exact congrArg (fun m => (m, nthD t k d)) (by omega)

theorem enumFromN_mem_of_lt {α : Type} {l : List α} {i : Nat} (n : Nat) (d : α)
    (h : i < l.length) : (n + i, nthD l i d) ∈ enumFromN n l := by
  induction l generalizing n i with
  | nil => simp at h
  | cons a t ih =>
    cases i with
    | zero => simp [enumFromN, nthD]
    | succ k =>
      have := @ih k (n + 1) (Nat.lt_of_succ_lt_succ (by simpa using h))
      refine List.mem_cons_of_mem _ ?_
      have heq : (n + (k + 1), nthD (a :: t) (k + 1) d) = (n + 1 + k, nthD t k d) :=
        congrArg (fun m => (m, nthD t k d)) (by omega)
      rw [heq]
      exact this

theorem eq_of_mem_enumFromN {α : Type} {l : List α} {n : Nat} {p : Nat × α}
    (d : α) (h : p ∈ enumFromN n l) :
    ∃ i, i < l.length ∧ p.1 = n + i ∧ p.2 = nthD l i d := by
  induction l generalizing n with
  | nil => simp [enumFromN] at h
  | cons a t ih =>
    rcases List.mem_cons.1 h with h1 | h1
    · exact ⟨0, by simp, by simp [h1], by simp [h1, nthD]⟩
    · rcases ih h1 with ⟨i, hi, hp1, hp2⟩
      exact ⟨i + 1, by simpa using Nat.succ_lt_succ hi, by omega, hp2⟩

/-! ### Structure of the built graph -/

theorem graphOf_length (g : Grid) : (graphOf g).length = (keys g).length := by
  unfold graphOf
  rw [List.length_map, enumFromN_length]

theorem graphOf_row (g : Grid) {u : Nat} (h : u < (keys g).length) :
    nthD (graphOf g) u [] = rowNbrs g (keys g) (nthD (keys g) u cell0) := by
  unfold graphOf
  have h1 : u < (enumFromN 0 (keys g)).length := by
    rw [enumFromN_length]; exact h
  rw [nthD_map _ ((0, cell0) : Nat × Cell) [] h1,
    nthD_enumFromN 0 cell0 (0, cell0) h]

theorem mem_rowNbrs_iff {g : Grid} {ks : List Cell} {c : Cell} {v : Nat} :
    v ∈ rowNbrs g ks c ↔ ∃ d ∈ neighborOffsets,
      ((c.1 + d.1, c.2 + d.2) : Cell) ∈ ks ∧ is_path_clear g c d.1 d.2 = true ∧
        v = list_index ks (c.1 + d.1, c.2 + d.2) := by
  unfold rowNbrs
  rw [List.mem_filterMap]
  constructor
  · rintro ⟨d, hd, hsome⟩
    refine ⟨d, hd, ?_⟩
    by_cases hg : ((c.1 + d.1, c.2 + d.2) : Cell) ∈ ks ∧ is_path_clear g c d.1 d.2 = true
    · rw [if_pos hg] at hsome
      exact ⟨hg.1, hg.2, (Option.some.inj hsome).symm⟩
    · rw [if_neg hg] at hsome
      exact absurd hsome (by simp)
  · rintro ⟨d, hd, h1, h2, h3⟩
    exact ⟨d, hd, by rw [if_pos ⟨h1, h2⟩, h3]⟩

theorem neighborOffsets_ne_zero : ∀ d ∈ neighborOffsets, d ≠ ((0 : Int), (0 : Int)) := by
  decide

theorem hasEdge_row {g : Grid} {b c : Cell} (hb : b ∈ keys g) (h : hasEdge g b c) :
    list_index (keys g) c ∈ nthD (graphOf g) (list_index (keys g) b) [] := by
  rcases h with ⟨d, hd, hc, hcK, hcl⟩
  rw [graphOf_row g (list_index_lt hb), list_index_nthD hb, mem_rowNbrs_iff]
  refine ⟨d, hd, ?_, ?_, ?_⟩
  · rw [← hc]; exact hcK
  · exact hcl
  · rw [← hc]

theorem row_hasEdge {g : Grid} {u v : Nat} (hu : u < (keys g).length)
    (hv : v ∈ nthD (graphOf g) u []) :
    v < (keys g).length ∧
      hasEdge g (nthD (keys g) u cell0) (nthD (keys g) v cell0) ∧ u ≠ v := by
  rw [graphOf_row g hu, mem_rowNbrs_iff] at hv
  rcases hv with ⟨d, hd, hnK, hcl, hvi⟩
  have hvlt : v < (keys g).length := by rw [hvi]; exact list_index_lt hnK
  have hnv : nthD (keys g) v cell0
      = ((nthD (keys g) u cell0).1 + d.1, (nthD (keys g) u cell0).2 + d.2) := by
    rw [hvi]; exact list_index_nthD hnK cell0
  refine ⟨hvlt, ⟨d, hd, hnv, by rw [hnv]; exact hnK, hcl⟩, ?_⟩
  intro huv
  rw [huv] at hnv
  have h1 : (nthD (keys g) v cell0).1 = (nthD (keys g) v cell0).1 + d.1 :=
    congrArg Prod.fst hnv
  have h2 : (nthD (keys g) v cell0).2 = (nthD (keys g) v cell0).2 + d.2 :=
    congrArg Prod.snd hnv
  refine neighborOffsets_ne_zero d hd ?_
  obtain ⟨da, db⟩ := d
  simp only [Prod.mk.injEq]
  constructor
  · omega
  · omega

/-! ### The edge-weight table -/

theorem wlookup_mem {l : List ((Nat × Nat) × W)} {k : Nat × Nat} {w : W}
    (h : wlookup l k = some w) : (k, w) ∈ l := by
  induction l with
  | nil => simp [wlookup] at h
  | cons e t ih =>
    by_cases he : e.1 = k
    · rw [wlookup, if_pos he] at h
      have : w = e.2 := (Option.some.inj h).symm
      rw [this, ← he]
      exact List.mem_cons_self _ _
    · rw [wlookup, if_neg he] at h
      exact List.mem_cons_of_mem _ (ih h)

theorem wlookup_isSome_of_mem {l : List ((Nat × Nat) × W)} {k : Nat × Nat} {w : W}
    (h : (k, w) ∈ l) : ∃ w', wlookup l k = some w' := by
  induction l with
  | nil => simp at h
  | cons e t ih =>
    by_cases he : e.1 = k
    · exact ⟨e.2, by rw [wlookup, if_pos he]⟩
    · rcases List.mem_cons.1 h with h1 | h1
      · exact absurd (congrArg Prod.fst h1.symm) he
      · rcases ih h1 with ⟨w', hw'⟩
        exact ⟨w', by rw [wlookup, if_neg he]; exact hw'⟩

theorem ewsOf_entry_shape {g : Grid} {p : (Nat × Nat) × W} (h : p ∈ ewsOf g) :
    p.2 = (1, 0) ∨ p.2 = (0, 1) := by
  unfold ewsOf at h
  rw [List.mem_flatten] at h
  rcases h with ⟨row, hrow, hp⟩
  rw [List.mem_map] at hrow
  rcases hrow with ⟨ic, _, rfl⟩
  unfold rowEdges at hp
  rw [List.mem_filterMap] at hp
  rcases hp with ⟨d, _, hsome⟩
  by_cases hg : ((ic.2.1 + d.1, ic.2.2 + d.2) : Cell) ∈ keys g ∧
      is_path_clear g ic.2 d.1 d.2 = true
  · rw [if_pos hg] at hsome
    have : p.2 = moveWeight d.1 d.2 := by
      rw [← Option.some.inj hsome]
    rw [this]
    unfold moveWeight
    by_cases hmw : d.1.natAbs + d.2.natAbs = 1
    · rw [if_pos hmw]; exact Or.inl rfl
    · rw [if_neg hmw]; exact Or.inr rfl
  · rw [if_neg hg] at hsome
    exact absurd hsome (by simp)

theorem ews_entry_of_guard {g : Grid} {u : Nat} {d : Int × Int}
    (hu : u < (keys g).length) (hd : d ∈ neighborOffsets)
    (hg : ((nthD (keys g) u cell0).1 + d.1, (nthD (keys g) u cell0).2 + d.2) ∈ keys g ∧
      is_path_clear g (nthD (keys g) u cell0) d.1 d.2 = true) :
    ((u, list_index (keys g)
        ((nthD (keys g) u cell0).1 + d.1, (nthD (keys g) u cell0).2 + d.2)),
      moveWeight d.1 d.2) ∈ ewsOf g := by
  unfold ewsOf
  rw [List.mem_flatten]
  refine ⟨rowEdges g (keys g) u (nthD (keys g) u cell0), ?_, ?_⟩
  · rw [List.mem_map]
    refine ⟨(u, nthD (keys g) u cell0), ?_, rfl⟩
    have := enumFromN_mem_of_lt 0 cell0 hu
    rwa [Nat.zero_add] at this
  · unfold rowEdges
    rw [List.mem_filterMap]
    exact ⟨d, hd, by rw [if_pos hg]⟩

theorem wlookup_row {g : Grid} {u v : Nat} (hu : u < (keys g).length)
    (hv : v ∈ nthD (graphOf g) u []) :
    ∃ w, wlookup (ewsOf g) (u, v) = some w ∧ (w = (1, 0) ∨ w = (0, 1)) := by
  rw [graphOf_row g hu, mem_rowNbrs_iff] at hv
  rcases hv with ⟨d, hd, hnK, hcl, hvi⟩
  have hmem := ews_entry_of_guard hu hd ⟨hnK, hcl⟩
  rw [← hvi] at hmem
  rcases wlookup_isSome_of_mem hmem with ⟨w', hw'⟩
  exact ⟨w', hw', ewsOf_entry_shape (wlookup_mem hw')⟩

/-! ### Preservation lemmas for the relaxation -/

theorem foldl_preserve {σ β : Type} (P : σ → Prop) (f : σ → β → σ) {l : List β}
    (hf : ∀ s b, b ∈ l → P s → P (f s b)) {s : σ} (hs : P s) :
    P (l.foldl f s) := by
  induction l generalizing s with
  | nil => exact hs
  | cons b t ih =>
    exact ih (fun s' b' hb' => hf s' b' (List.mem_cons_of_mem _ hb'))
      (hf s b (List.mem_cons_self _ _) hs)

theorem dGT_none_right (a : Option W) : dGT a none = false := by
  cases a <;> rfl

theorem relaxEdge_length (ews : List ((Nat × Nat) × W)) (st : RState) (u v : Nat) :
    (relaxEdge ews st u v).1.length = st.1.length ∧
      (relaxEdge ews st u v).2.length = st.2.length := by
  unfold relaxEdge
  by_cases hc : dGT (nthD st.1 v none)
      (addDW (nthD st.1 u none) ((wlookup ews (u, v)).getD (0, 0))) = true
  · rw [if_pos hc]
    exact ⟨List.length_set _ _ _, List.length_set _ _ _⟩
  · rw [if_neg hc]
    exact ⟨rfl, rfl⟩

theorem relaxEdge_finite_mono {ews : List ((Nat × Nat) × W)} {st : RState}
    {u v i : Nat} (h : nthD st.1 i none ≠ none) :
    nthD (relaxEdge ews st u v).1 i none ≠ none := by
  have hi : i < st.1.length := by
    by_contra hc
    exact h (nthD_of_length_le none (Nat.le_of_not_lt hc))
  unfold relaxEdge
  by_cases hc : dGT (nthD st.1 v none)
      (addDW (nthD st.1 u none) ((wlookup ews (u, v)).getD (0, 0))) = true
  · rw [if_pos hc]
    by_cases hvi : v = i
    · subst hvi
      rw [nthD_set_self _ none hi]
      intro hnone
      rw [hnone, dGT_none_right] at hc
      exact Bool.false_ne_true hc
    · rw [nthD_set_ne _ none hvi]
      exact h
  · rw [if_neg hc]
    exact h

theorem relaxRow_finite_mono {graph : List (List Nat)}
    {ews : List ((Nat × Nat) × W)} {st : RState} {u i : Nat}
    (h : nthD st.1 i none ≠ none) :
    nthD (relaxRow graph ews st u).1 i none ≠ none := by
  unfold relaxRow
  exact foldl_preserve (fun (s : RState) => nthD s.1 i none ≠ none) _
    (fun s b _ hb => relaxEdge_finite_mono hb) h

theorem relaxPass_finite_mono {graph : List (List Nat)}
    {ews : List ((Nat × Nat) × W)} {st : RState} {i : Nat}
    (h : nthD st.1 i none ≠ none) :
    nthD (relaxPass graph ews st).1 i none ≠ none := by
  unfold relaxPass
  exact foldl_preserve (fun (s : RState) => nthD s.1 i none ≠ none) _
    (fun s b _ hb => relaxRow_finite_mono hb) h

theorem relaxRow_length (graph : List (List Nat)) (ews : List ((Nat × Nat) × W))
    (st : RState) (u : Nat) :
    (relaxRow graph ews st u).1.length = st.1.length ∧
      (relaxRow graph ews st u).2.length = st.2.length := by
  unfold relaxRow
  exact foldl_preserve
    (fun (s : RState) => s.1.length = st.1.length ∧ s.2.length = st.2.length) _
    (fun s b _ hb => by
      rcases relaxEdge_length ews s u b with ⟨e1, e2⟩
      exact ⟨e1.trans hb.1, e2.trans hb.2⟩) ⟨rfl, rfl⟩

theorem relaxPass_length (graph : List (List Nat)) (ews : List ((Nat × Nat) × W))
    (st : RState) :
    (relaxPass graph ews st).1.length = st.1.length ∧
      (relaxPass graph ews st).2.length = st.2.length := by
  unfold relaxPass
  exact foldl_preserve
    (fun (s : RState) => s.1.length = st.1.length ∧ s.2.length = st.2.length) _
    (fun s b _ hb => by
      rcases relaxRow_length graph ews s b with ⟨e1, e2⟩
      exact ⟨e1.trans hb.1, e2.trans hb.2⟩) ⟨rfl, rfl⟩

theorem dGT_none_some (y : W) : dGT none (some y) = true := rfl

theorem relaxPass_edge_finite {graph : List (List Nat)}
    {ews : List ((Nat × Nat) × W)} {st : RState} {u v : Nat}
    (hu : u < graph.length) (hv : v ∈ nthD graph u []) (hvlen : v < st.1.length)
    (hfin : nthD st.1 u none ≠ none) :
    nthD (relaxPass graph ews st).1 v none ≠ none := by
  unfold relaxPass
  obtain ⟨l1, l2, hsplit⟩ := List.append_of_mem (List.mem_range.2 hu)
  rw [hsplit, List.foldl_append, List.foldl_cons]
  have hfin1 : nthD (l1.foldl (relaxRow graph ews) st).1 u none ≠ none :=
    foldl_preserve (fun (s : RState) => nthD s.1 u none ≠ none) _
      (fun s b _ hb => relaxRow_finite_mono hb) hfin
  have hlen1 : (l1.foldl (relaxRow graph ews) st).1.length = st.1.length :=
    (foldl_preserve (fun (s : RState) => s.1.length = st.1.length) _
      (fun s b _ hb => ((relaxRow_length graph ews s b).1).trans hb) rfl)
  have key : nthD (relaxRow graph ews (l1.foldl (relaxRow graph ews) st) u).1
      v none ≠ none := by
    unfold relaxRow
    obtain ⟨m1, m2, hrow⟩ := List.append_of_mem hv
    rw [hrow, List.foldl_append, List.foldl_cons]
    have hfin2 : nthD ((m1.foldl (fun s vv => relaxEdge ews s u vv)
        (l1.foldl (relaxRow graph ews) st)).1) u none ≠ none :=
      foldl_preserve (fun (s : RState) => nthD s.1 u none ≠ none) _
        (fun s b _ hb => relaxEdge_finite_mono hb) hfin1
    have hlen2 : (m1.foldl (fun s vv => relaxEdge ews s u vv)
        (l1.foldl (relaxRow graph ews) st)).1.length = st.1.length :=
      (foldl_preserve (fun (s : RState) => s.1.length = st.1.length) _
        (fun s b _ hb => ((relaxEdge_length ews s u b).1).trans hb) hlen1)
    have hstep : nthD ((relaxEdge ews (m1.foldl (fun s vv => relaxEdge ews s u vv)
        (l1.foldl (relaxRow graph ews) st)) u v).1) v none ≠ none := by
      generalize hst2 : m1.foldl (fun s vv => relaxEdge ews s u vv)
        (l1.foldl (relaxRow graph ews) st) = st2 at hfin2 hlen2
      obtain ⟨x, hx⟩ := Option.ne_none_iff_exists'.1 hfin2
      unfold relaxEdge
      rw [hx]
      by_cases hgt : dGT (nthD st2.1 v none)
          (addDW (some x) ((wlookup ews (u, v)).getD (0, 0))) = true
      · rw [if_pos hgt, nthD_set_self _ none (by rw [hlen2]; exact hvlen)]
        simp [addDW]
      · rw [if_neg hgt]
        intro hnone
        exact hgt (by rw [hnone]; rfl)
    exact foldl_preserve (fun (s : RState) => nthD s.1 v none ≠ none) _
      (fun s b _ hb => relaxEdge_finite_mono hb) hstep
  exact foldl_preserve (fun (s : RState) => nthD s.1 v none ≠ none) _
    (fun s b _ hb => relaxRow_finite_mono hb) key

theorem passesK_succ (graph : List (List Nat)) (ews : List ((Nat × Nat) × W))
    (st0 : RState) (k : Nat) :
    passesK graph ews st0 (k + 1) = relaxPass graph ews (passesK graph ews st0 k) := by
  unfold passesK
  rw [List.range_succ, List.foldl_append]
  rfl

theorem passesK_finite_mono {graph : List (List Nat)}
    {ews : List ((Nat × Nat) × W)} {st0 : RState} {i : Nat} (k : Nat)
    (h : nthD st0.1 i none ≠ none) :
    nthD (passesK graph ews st0 k).1 i none ≠ none := by
  induction k with
  | zero => exact h
  | succ m ih => rw [passesK_succ]; exact relaxPass_finite_mono ih

theorem passesK_length (graph : List (List Nat)) (ews : List ((Nat × Nat) × W))
    (st0 : RState) (k : Nat) :
    (passesK graph ews st0 k).1.length = st0.1.length ∧
      (passesK graph ews st0 k).2.length = st0.2.length := by
  induction k with
  | zero => exact ⟨rfl, rfl⟩
  | succ m ih =>
    rw [passesK_succ]
    rcases relaxPass_length graph ews (passesK graph ews st0 m) with ⟨e1, e2⟩
    exact ⟨e1.trans ih.1, e2.trans ih.2⟩

/-! ### Reachability gives a finite distance within `V - 1` passes -/

theorem hasEdge_mem_right {g : Grid} {b c : Cell} (h : hasEdge g b c) :
    c ∈ keys g := by
  rcases h with ⟨d, _, _, hm, _⟩
  exact hm

theorem reachN_mem {g : Grid} {s c : Cell} {n : Nat} (h : ReachN g s c n)
    (hs : s ∈ keys g) : c ∈ keys g := by
  induction h with
  | refl => exact hs
  | tail _ he _ => exact hasEdge_mem_right he

theorem reachN_head {g : Grid} {s b c : Cell} {n : Nat}
    (hsb : hasEdge g s b) (h : ReachN g b c n) : ReachN g s c (n + 1) := by
  induction h with
  | refl => exact ReachN.tail ReachN.refl hsb
  | tail _ he ih => exact ReachN.tail ih he

theorem chain_to_reachN {g : Grid} {c : Cell} :
    ∀ {s : Cell} {l : List Cell}, List.Chain (hasEdge g) s l →
      (s :: l).getLast? = some c → ReachN g s c l.length := by
  intro s l
  induction l generalizing s with
  | nil =>
    intro _ hlast
    have : s = c := by simpa [List.getLast?] using hlast
    rw [this]
    exact ReachN.refl
  | cons b t ih =>
    intro hch hlast
    rcases List.chain_cons.1 hch with ⟨hsb, hbt⟩
    rw [List.getLast?_cons_cons] at hlast
    exact reachN_head hsb (ih hbt hlast)

theorem chain_mem_keys {g : Grid} :
    ∀ {s : Cell} {l : List Cell}, List.Chain (hasEdge g) s l →
      ∀ x ∈ l, x ∈ keys g := by
  intro s l
  induction l generalizing s with
  | nil => intro _ x hx; simp at hx
  | cons b t ih =>
    intro hch x hx
    rcases List.chain_cons.1 hch with ⟨hsb, hbt⟩
    rcases List.mem_cons.1 hx with h1 | h1
    · rw [h1]; exact hasEdge_mem_right hsb
    · exact ih hbt x h1

theorem getLast?_cons_append_cons {α : Type} (x : α) (t1 : List α) (a : α)
    (t2 : List α) : (x :: (t1 ++ a :: t2)).getLast? = (a :: t2).getLast? :=
  List.getLast?_append_cons (x :: t1) a t2

theorem pair_sublist_decomp {α : Type} {a : α} :
    ∀ {l : List α}, List.Sublist [a, a] l → ∃ t1 t2 t3, l = t1 ++ a :: t2 ++ a :: t3 := by
  intro l
  induction l with
  | nil => intro h; simp at h
  | cons x t ih =>
    intro h
    cases h with
    | cons a' h' =>
      rcases ih h' with ⟨t1, t2, t3, rfl⟩
      exact ⟨x :: t1, t2, t3, rfl⟩
    | cons₂ a' h' =>
      have hmem : a ∈ t := List.singleton_sublist.1 h'
      rcases List.append_of_mem hmem with ⟨t2, t3, rfl⟩
      exact ⟨[], t2, t3, rfl⟩

theorem chain_shorten {g : Grid} {s c : Cell} (hs : s ∈ keys g) :
    ∀ N : Nat, ∀ l : List Cell, l.length ≤ N → List.Chain (hasEdge g) s l →
      (s :: l).getLast? = some c →
      ∃ l', l'.length + 1 ≤ (keys g).length ∧ List.Chain (hasEdge g) s l' ∧
        (s :: l').getLast? = some c := by
  intro N
  induction N with
  | zero =>
    intro l hlen hch hlast
    have hl0 : l = [] := List.length_eq_zero.1 (Nat.le_zero.1 hlen)
    subst hl0
    refine ⟨[], ?_, hch, hlast⟩
    have : [s].Nodup := by simp
    have hsub : [s] ⊆ keys g := by
      intro x hx
      rcases List.mem_singleton.1 hx with rfl
      exact hs
    simpa using (this.subperm hsub).length_le
  | succ N ih =>
    intro l hlen hch hlast
    by_cases hnd : (s :: l).Nodup
    · refine ⟨l, ?_, hch, hlast⟩
      have hsub : s :: l ⊆ keys g := by
        intro x hx
        rcases List.mem_cons.1 hx with rfl | h1
        · exact hs
        · exact chain_mem_keys hch x h1
      simpa using (hnd.subperm hsub).length_le
    · rcases (by
          by_contra hno
          push_neg at hno
          exact hnd (List.nodup_iff_sublist.2 hno) :
          ∃ a, List.Sublist [a, a] (s :: l)) with ⟨a, hdup⟩
      rcases pair_sublist_decomp hdup with ⟨t1, t2, t3, hdecomp⟩
      cases t1 with
      | nil =>
        have hsa : s = a := (List.cons.injEq s l a (t2 ++ a :: t3) ▸ hdecomp).1
        have hl : l = t2 ++ a :: t3 := (List.cons.injEq s l a (t2 ++ a :: t3) ▸ hdecomp).2
        have hl' : l = t2 ++ s :: t3 := by rw [hl, ← hsa]
        rw [hl'] at hch hlast
        have hsplitn : List.Chain (hasEdge g) s (t2 ++ [s]) ∧
            List.Chain (hasEdge g) s t3 :=
          List.chain_split.1 hch
        have hlast3 : (s :: t3).getLast? = some c := by
          rw [← getLast?_cons_append_cons s t2 s t3]
          exact hlast
        refine ih t3 ?_ hsplitn.2 hlast3
        have hL : l.length = t2.length + t3.length + 1 := by
          rw [hl']; simp only [List.length_append, List.length_cons]; omega
        omega
      | cons x t1' =>
        have hsx : s = x :=
          (List.cons.injEq s l x (t1' ++ a :: t2 ++ a :: t3) ▸ hdecomp).1
        have hl : l = t1' ++ a :: t2 ++ a :: t3 :=
          (List.cons.injEq s l x (t1' ++ a :: t2 ++ a :: t3) ▸ hdecomp).2
        have hl2 : l = t1' ++ a :: (t2 ++ a :: t3) := by
          rw [hl, List.append_assoc, List.cons_append]
        rw [hl2] at hch hlast
        have hsplit1 : List.Chain (hasEdge g) s (t1' ++ [a]) ∧
            List.Chain (hasEdge g) a (t2 ++ a :: t3) :=
          List.chain_split.1 hch
        have hsplit2 : List.Chain (hasEdge g) a (t2 ++ [a]) ∧
            List.Chain (hasEdge g) a t3 :=
          List.chain_split.1 hsplit1.2
        have hch' : List.Chain (hasEdge g) s (t1' ++ a :: t3) :=
          List.chain_split.2 ⟨hsplit1.1, hsplit2.2⟩
        have hlastx : (a :: t3).getLast? = some c := by
          rw [getLast?_cons_append_cons s t1' a (t2 ++ a :: t3)] at hlast
          rw [getLast?_cons_append_cons a t2 a t3] at hlast
          exact hlast
        have hlast' : (s :: (t1' ++ a :: t3)).getLast? = some c := by
          rw [getLast?_cons_append_cons s t1' a t3]
          exact hlastx
        refine ih (t1' ++ a :: t3) ?_ hch' hlast'
        have hlold : l.length = t1'.length + t2.length + t3.length + 2 := by
          rw [hl2]; simp only [List.length_append, List.length_cons]; omega
        have hlnew : (t1' ++ a :: t3).length = t1'.length + t3.length + 1 := by
          simp only [List.length_append, List.length_cons]; omega
        omega

theorem bfInit_dist_length (graph : List (List Nat)) (si : Nat) :
    (bfInit graph si).1.length = graph.length := by
  unfold bfInit
  rw [List.length_set, List.length_replicate]

theorem reachN_finite {g : Grid} {s : Cell} (hs : s ∈ keys g) :
    ∀ {c : Cell} {n : Nat}, ReachN g s c n → ∀ k, n ≤ k →
      nthD (passesK (graphOf g) (ewsOf g)
          (bfInit (graphOf g) (list_index (keys g) s)) k).1
        (list_index (keys g) c) none ≠ none := by
  intro c n hr
  induction hr with
  | refl =>
    intro k _
    apply passesK_finite_mono
    have hsi : list_index (keys g) s < (graphOf g).length := by
      rw [graphOf_length]; exact list_index_lt hs
    unfold bfInit
    rw [nthD_set_self _ none (by rw [List.length_replicate]; exact hsi)]
    simp
  | tail hb he ih =>
    intro k hk
    cases k with
    | zero => omega
    | succ k' =>
      rw [passesK_succ]
      rename_i b c' m
      have hbK : b ∈ keys g := reachN_mem hb hs
      have hcK : c' ∈ keys g := hasEdge_mem_right he
      apply relaxPass_edge_finite
      · rw [graphOf_length]; exact list_index_lt hbK
      · exact hasEdge_row hbK he
      · rw [(passesK_length (graphOf g) (ewsOf g) _ k').1,
          bfInit_dist_length, graphOf_length]
        exact list_index_lt hcK
      · exact ih k' (by omega)

theorem bf_state_eq_passesK (graph : List (List Nat))
    (ews : List ((Nat × Nat) × W)) (si : Nat) :
    bf_state graph ews si
      = passesK graph ews (bfInit graph si) (graph.length - 1) := rfl

theorem reachable_finite {g : Grid} {s e : Cell} (hs : s ∈ keys g)
    (hr : Reachable g s e) :
    nthD (bf_state (graphOf g) (ewsOf g) (list_index (keys g) s)).1
      (list_index (keys g) e) none ≠ none := by
  rcases List.exists_chain_of_relationReflTransGen hr with ⟨l, hch, hlast⟩
  have hlast? : (s :: l).getLast? = some e := by
    rw [List.getLast?_eq_getLast (s :: l) (List.cons_ne_nil _ _)]
    exact congrArg some hlast
  rcases chain_shorten hs l.length l (le_refl _) hch hlast? with
    ⟨l', hlen, hch', hlast'⟩
  have hreach : ReachN g s e l'.length := chain_to_reachN hch' hlast'
  rw [bf_state_eq_passesK]
  apply reachN_finite hs hreach
  rw [graphOf_length]
  omega

/-! ### The solver invariant is established by the relaxation -/

theorem relaxEdge_inv {ews : List ((Nat × Nat) × W)} {st : RState}
    {u v si V : Nat} (hu : u < V) (hv : v < V) (huv : u ≠ v)
    (hw : (wlookup ews (u, v)).getD (0, 0) = (1, 0) ∨
      (wlookup ews (u, v)).getD (0, 0) = (0, 1))
    (hinv : BFInv si V st) : BFInv si V (relaxEdge ews st u v) := by
  obtain ⟨hlen1, hlen2, hstart, hpred⟩ := hinv
  unfold relaxEdge
  by_cases hc : dGT (nthD st.1 v none)
      (addDW (nthD st.1 u none) ((wlookup ews (u, v)).getD (0, 0))) = true
  swap
  · rw [if_neg hc]
    exact ⟨hlen1, hlen2, hstart, hpred⟩
  rw [if_pos hc]
  have hune : nthD st.1 u none ≠ none := by
    intro h0
    rw [h0] at hc
    exact Bool.false_ne_true ((dGT_none_right _) ▸ hc)
  obtain ⟨xu, hxu⟩ := Option.ne_none_iff_exists'.1 hune
  refine ⟨by rw [List.length_set]; exact hlen1,
    by rw [List.length_set]; exact hlen2, ?_, ?_⟩
  · intro v' hv' hp' hd'
    by_cases hvv : v = v'
    · exfalso
      rw [← hvv] at hp'
      rw [nthD_set_self _ (-1) (by rw [hlen2]; exact hv)] at hp'
      omega
    · rw [nthD_set_ne _ (-1) hvv] at hp'
      rw [nthD_set_ne _ none hvv] at hd'
      exact hstart v' hv' hp' hd'
  · intro v' hv' hp'
    by_cases hvv : v = v'
    · rw [← hvv]
      refine ⟨u, hu, ?_, xu, addW xu ((wlookup ews (u, v)).getD (0, 0)), ?_, ?_, ?_⟩
      · rw [nthD_set_self _ (-1) (by rw [hlen2]; exact hv)]
      · rw [nthD_set_ne _ none (Ne.symm huv)]
        exact hxu
      · rw [nthD_set_self _ none (by rw [hlen1]; exact hv), hxu]
        rfl
      · exact wlt_addW_right xu hw
    · rw [nthD_set_ne _ (-1) hvv] at hp'
      rcases hpred v' hv' hp' with ⟨u'', hu'', hpu'', x, y, hx, hy, hxy⟩
      refine ⟨u'', hu'', by rw [nthD_set_ne _ (-1) hvv]; exact hpu'', ?_⟩
      by_cases hvu : v = u''
      · refine ⟨addW xu ((wlookup ews (u, v)).getD (0, 0)), y, ?_, ?_, ?_⟩
        · rw [← hvu, nthD_set_self _ none (by rw [hlen1]; exact hv), hxu]
          rfl
        · rw [nthD_set_ne _ none hvv]
          exact hy
        · have h1 : wlt (addW xu ((wlookup ews (u, v)).getD (0, 0))) x = true := by
            rw [← hvu] at hx
            rw [hx, hxu] at hc
            exact hc
          exact wlt_trans h1 hxy
      · refine ⟨x, y, ?_, ?_, hxy⟩
        · rw [nthD_set_ne _ none hvu]
          exact hx
        · rw [nthD_set_ne _ none hvv]
          exact hy

theorem bfInit_inv (graph : List (List Nat)) (si : Nat) :
    BFInv si graph.length (bfInit graph si) := by
  unfold bfInit BFInv
  refine ⟨by rw [List.length_set, List.length_replicate],
    by rw [List.length_replicate], ?_, ?_⟩
  · intro v hv hp hd
    by_contra hvs
    apply hd
    rw [nthD_set_ne _ none (fun h => hvs h.symm)]
    exact nthD_replicate none none hv
  · intro v hv hp
    exact absurd (nthD_replicate (-1) (-1) hv) hp

theorem relaxRow_inv {g : Grid} {st : RState} {si u : Nat}
    (hu : u < (graphOf g).length)
    (hinv : BFInv si (graphOf g).length st) :
    BFInv si (graphOf g).length (relaxRow (graphOf g) (ewsOf g) st u) := by
  unfold relaxRow
  refine foldl_preserve (BFInv si (graphOf g).length) _ ?_ hinv
  intro s v hvmem hs
  have hu' : u < (keys g).length := by rw [← graphOf_length]; exact hu
  rcases row_hasEdge hu' hvmem with ⟨hvlt, _, huv⟩
  rcases wlookup_row hu' hvmem with ⟨w, hwl, hwshape⟩
  refine relaxEdge_inv hu ?_ huv ?_ hs
  · rw [graphOf_length]; exact hvlt
  · rw [hwl]
    simpa using hwshape

theorem relaxPass_inv {g : Grid} {st : RState} {si : Nat}
    (hinv : BFInv si (graphOf g).length st) :
    BFInv si (graphOf g).length (relaxPass (graphOf g) (ewsOf g) st) := by
  unfold relaxPass
  exact foldl_preserve (BFInv si (graphOf g).length) _
    (fun s u hu hs => relaxRow_inv (List.mem_range.1 hu) hs) hinv

theorem bf_state_inv (g : Grid) (si : Nat) :
    BFInv si (graphOf g).length (bf_state (graphOf g) (ewsOf g) si) := by
  rw [bf_state_eq_passesK]
  generalize (graphOf g).length - 1 = k
  induction k with
  | zero => exact bfInit_inv (graphOf g) si
  | succ m ih =>
    rw [passesK_succ]
    exact relaxPass_inv ih

/-! ### The reconstruction walk terminates and links start to end -/

theorem dLT_trans {a b c : Option W} (h1 : dLT a b = true) (h2 : dLT b c = true) :
    dLT a c = true := by
  cases a <;> cases b <;> cases c <;> simp [dLT] at h1 h2 ⊢
  exact wlt_trans h1 h2

theorem dLT_irrefl (a : Option W) : dLT a a ≠ true := by
  cases a with
  | none => simp [dLT]
  | some x => simpa [dLT] using wlt_irrefl x

theorem dsc_lt {st : RState} {V u v : Nat} (hu : u < V)
    (hdu : dLT (nthD st.1 u none) (nthD st.1 v none) = true) :
    dsc st V u < dsc st V v := by
  unfold dsc
  apply Finset.card_lt_card
  have hsub : (Finset.range V).filter
      (fun w => dLT (nthD st.1 w none) (nthD st.1 u none) = true) ⊆
      (Finset.range V).filter
      (fun w => dLT (nthD st.1 w none) (nthD st.1 v none) = true) := by
    intro w hw
    rcases Finset.mem_filter.1 hw with ⟨hw1, hw2⟩
    exact Finset.mem_filter.2 ⟨hw1, dLT_trans hw2 hdu⟩
  rw [Finset.ssubset_iff_of_subset hsub]
  refine ⟨u, Finset.mem_filter.2 ⟨Finset.mem_range.2 hu, hdu⟩, ?_⟩
  intro hmem
  exact dLT_irrefl _ (Finset.mem_filter.1 hmem).2

theorem dsc_le {st : RState} (V v : Nat) : dsc st V v ≤ V := by
  unfold dsc
  calc ((Finset.range V).filter _).card ≤ (Finset.range V).card :=
        Finset.card_filter_le _ _
    _ = V := Finset.card_range V

theorem reconstructLoop_ok {st : RState} {si V : Nat}
    (hinv : BFInv si V st) :
    ∀ fuel cur racc, cur < V → nthD st.1 cur none ≠ none →
      dsc st V cur < fuel →
      ∃ mid, reconstructLoop st.2 si fuel (cur : Int) racc
          = some ((si : Int) :: (mid ++ racc)) ∧
        ((mid = [] ∧ cur = si) ∨ mid.getLast? = some (cur : Int)) := by
  intro fuel
  induction fuel with
  | zero =>
    intro cur racc _ _ h
    omega
  | succ f ih =>
    intro cur racc hcur hfin hfuel
    by_cases hcs : (cur : Int) = (si : Int)
    · refine ⟨[], ?_, Or.inl ⟨rfl, by exact_mod_cast hcs⟩⟩
      simp only [reconstructLoop, if_pos hcs]
      rfl
    · obtain ⟨hlen1, hlen2, hstart, hpred⟩ := hinv
      have hcs' : cur ≠ si := fun h => hcs (by rw [h])
      have hpne : nthD st.2 cur (-1) ≠ -1 := by
        intro h0
        exact hcs' (hstart cur hcur h0 hfin)
      rcases hpred cur hcur hpne with ⟨u, hu, hpu, x, y, hx, hy, hxy⟩
      have hufin : nthD st.1 u none ≠ none := by rw [hx]; simp
      have hmeas : dsc st V u < f := by
        have h1 : dsc st V u < dsc st V cur := by
          apply dsc_lt hu
          rw [hx, hy]
          exact hxy
        omega
      rcases ih u ((cur : Int) :: racc) hu hufin hmeas with ⟨mid2, hres, _⟩
      refine ⟨mid2 ++ [(cur : Int)], ?_, Or.inr (List.getLast?_concat _)⟩
      have htn : ((cur : Int)).toNat = cur := rfl
      have hne : ¬((u : Int) = (-1 : Int)) := by omega
      simp only [reconstructLoop, if_neg hcs, htn, hpu, if_neg hne]
      rw [hres, List.append_cons]

/-! ### Finite distances only arise for reachable vertices -/

theorem nthD_mem {α : Type} {l : List α} {i : Nat} (d : α) (h : i < l.length) :
    nthD l i d ∈ l := by
  induction l generalizing i with
  | nil => simp at h
  | cons x t ih =>
    cases i with
    | zero => exact List.mem_cons_self _ _
    | succ n =>
      exact List.mem_cons_of_mem _ (ih (Nat.lt_of_succ_lt_succ (by simpa using h)))

theorem relaxEdge_rinv {g : Grid} {s : Cell} {st : RState} {u v : Nat}
    (hu : u < (keys g).length) (hvr : v ∈ nthD (graphOf g) u [])
    (hinv : RInv g s st) : RInv g s (relaxEdge (ewsOf g) st u v) := by
  intro v' hv' hfin'
  unfold relaxEdge at hfin'
  by_cases hc : dGT (nthD st.1 v none)
      (addDW (nthD st.1 u none) ((wlookup (ewsOf g) (u, v)).getD (0, 0))) = true
  swap
  · rw [if_neg hc] at hfin'
    exact hinv v' hv' hfin'
  rw [if_pos hc] at hfin'
  by_cases hvv : v = v'
  · by_cases hlt : v < st.1.length
    · rw [← hvv, nthD_set_self _ none hlt] at hfin'
      have hufin : nthD st.1 u none ≠ none := by
        intro h0
        rw [h0] at hfin'
        exact hfin' rfl
      have hreach_u : Reachable g s (nthD (keys g) u cell0) := hinv u hu hufin
      rcases row_hasEdge hu hvr with ⟨_, hedge, _⟩
      rw [← hvv]
      exact Relation.ReflTransGen.tail hreach_u hedge
    · exfalso
      apply hfin'
      apply nthD_of_length_le
      rw [← hvv, List.length_set]
      exact Nat.le_of_not_lt hlt
  · rw [nthD_set_ne _ none hvv] at hfin'
    exact hinv v' hv' hfin'

theorem relaxRow_rinv {g : Grid} {s : Cell} {st : RState} {u : Nat}
    (hu : u < (graphOf g).length)
    (hinv : RInv g s st) : RInv g s (relaxRow (graphOf g) (ewsOf g) st u) := by
  unfold relaxRow
  refine foldl_preserve (RInv g s) _ ?_ hinv
  intro s' v hvmem hs'
  exact relaxEdge_rinv (by rw [← graphOf_length]; exact hu) hvmem hs'

theorem relaxPass_rinv {g : Grid} {s : Cell} {st : RState}
    (hinv : RInv g s st) : RInv g s (relaxPass (graphOf g) (ewsOf g) st) := by
  unfold relaxPass
  exact foldl_preserve (RInv g s) _
    (fun s' u hu hs' => relaxRow_rinv (List.mem_range.1 hu) hs') hinv

theorem bfInit_rinv {g : Grid} {s : Cell} (hs : s ∈ keys g) :
    RInv g s (bfInit (graphOf g) (list_index (keys g) s)) := by
  intro v hv hfin
  unfold bfInit at hfin
  by_cases hvs : v = list_index (keys g) s
  · rw [hvs, list_index_nthD hs]
    exact Relation.ReflTransGen.refl
  · exfalso
    apply hfin
    rw [nthD_set_ne _ none (fun h => hvs h.symm)]
    exact nthD_replicate none none (by rw [graphOf_length]; exact hv)

theorem bf_state_rinv {g : Grid} {s : Cell} (hs : s ∈ keys g) :
    RInv g s (bf_state (graphOf g) (ewsOf g) (list_index (keys g) s)) := by
  rw [bf_state_eq_passesK]
  generalize (graphOf g).length - 1 = k
  induction k with
  | zero => exact bfInit_rinv hs
  | succ m ih =>
    rw [passesK_succ]
    exact relaxPass_rinv ih

/-! ### Which cells become vertices and which moves are clear -/

theorem mem_keys_iff {g : Grid} {c : Cell} :
    c ∈ keys g ↔ ∃ i j : Nat, i < g.length ∧ j < (nthD g i []).length ∧
      c = ((i : Int), (j : Int)) ∧ nthD (nthD g i []) j 1 = 0 := by
  unfold keys
  rw [List.mem_flatten]
  constructor
  · rintro ⟨row, hrow, hc⟩
    rw [List.mem_map] at hrow
    rcases hrow with ⟨ir, hir, rfl⟩
    rcases eq_of_mem_enumFromN ([] : List Nat) hir with ⟨i, hi, hir1, hir2⟩
    unfold rowKeys at hc
    rw [List.mem_filterMap] at hc
    rcases hc with ⟨jv, hjv, hsome⟩
    rcases eq_of_mem_enumFromN (1 : Nat) hjv with ⟨j, hj, hjv1, hjv2⟩
    by_cases h0 : jv.2 = 0
    · rw [if_pos h0] at hsome
      refine ⟨i, j, hi, ?_, ?_, ?_⟩
      · rw [← hir2]; exact hj
      · rw [← Option.some.inj hsome, hir1, hjv1]
        simp [Nat.zero_add]
      · rw [← hir2, ← hjv2]; exact h0
    · rw [if_neg h0] at hsome
      exact absurd hsome (by simp)
  · rintro ⟨i, j, hi, hj, rfl, hval⟩
    refine ⟨rowKeys i (nthD g i []), ?_, ?_⟩
    · rw [List.mem_map]
      refine ⟨(i, nthD g i []), ?_, rfl⟩
      have := enumFromN_mem_of_lt 0 ([] : List Nat) hi
      rwa [Nat.zero_add] at this
    · unfold rowKeys
      rw [List.mem_filterMap]
      refine ⟨(j, nthD (nthD g i []) j 1), ?_, ?_⟩
      · have := enumFromN_mem_of_lt 0 (1 : Nat) hj
        rwa [Nat.zero_add] at this
      · rw [if_pos hval]

theorem mem_keys_iff_rect {g : Grid} (hrect : Rectangular g) {c : Cell} :
    c ∈ keys g ↔ inBounds g c ∧ freeCell g c := by
  rw [mem_keys_iff]
  unfold inBounds freeCell
  constructor
  · rintro ⟨i, j, hi, hj, rfl, hval⟩
    have hrow : (nthD g i []).length = (nthD g 0 []).length :=
      hrect (nthD g i []) (nthD_mem [] hi)
    constructor
    · refine ⟨by simp, ?_, by simp, ?_⟩
      · show (i : Int) < (g.length : Int)
        exact_mod_cast hi
      · show (j : Int) < ((nthD g 0 []).length : Int)
        rw [← hrow]
        exact_mod_cast hj
    · simpa using hval
  · rintro ⟨⟨h1, h2, h3, h4⟩, hval⟩
    refine ⟨c.1.toNat, c.2.toNat, ?_, ?_, ?_, hval⟩
    · omega
    · have hi : c.1.toNat < g.length := by omega
      have hrow : (nthD g c.1.toNat []).length = (nthD g 0 []).length :=
        hrect (nthD g c.1.toNat []) (nthD_mem [] hi)
      rw [hrow]
      omega
    · obtain ⟨c1, c2⟩ := c
      simp only [Prod.mk.injEq]
      constructor
      · omega
      · omega

theorem is_path_clear_iff {g : Grid} {c : Cell} {dx dy : Int} :
    is_path_clear g c dx dy = true ↔
      inBounds g (c.1 + dx, c.2 + dy) ∧ freeCell g (c.1 + dx, c.2 + dy) := by
  unfold is_path_clear inBounds freeCell
  by_cases hb : 0 ≤ c.1 + dx ∧ c.1 + dx < (g.length : Int) ∧ 0 ≤ c.2 + dy ∧
      c.2 + dy < ((nthD g 0 []).length : Int)
  · rw [if_pos hb]
    simp [hb]
  · rw [if_neg hb]
    simp only [Bool.false_eq_true, false_iff]
    intro hcon
    exact hb ⟨hcon.1.1, hcon.1.2.1, hcon.1.2.2.1, hcon.1.2.2.2⟩

/-! ### Assembling `find_path` -/

theorem create_graph_ok {g : Grid} (h : keys g ≠ []) :
    create_graph g = Except.ok (graphOf g, keys g, ewsOf g) := by
  have h' : ¬((keys g).isEmpty = true) := by
    simpa [List.isEmpty_iff] using h
  unfold create_graph
  rw [if_neg h']

theorem find_path_bf {m : LidarMap} {s e : Cell} (hks : keys m.map ≠ []) :
    find_path (RoadFinder.init m s e)
      = bellman_ford (RoadFinder.init m s e) (graphOf m.map) (keys m.map)
        (ewsOf m.map) := by
  unfold find_path
  rw [show (RoadFinder.init m s e).lidar_map = m.map from rfl, create_graph_ok hks]

theorem getLast?_cons_some {α : Type} {l : List α} {a : α} (x : α)
    (h : l.getLast? = some a) : (x :: l).getLast? = some a := by
  cases l with
  | nil => simp at h
  | cons b t =>
    rw [List.getLast?_cons_cons]
    exact h

theorem getLast?_of_map {α β : Type} (f : α → β) (l : List α) :
    (l.map f).getLast? = l.getLast?.map f := by
  induction l with
  | nil => rfl
  | cons a t ih =>
    cases t with
    | nil => rfl
    | cons b t' =>
      rw [List.map_cons, List.map_cons, List.getLast?_cons_cons,
        List.getLast?_cons_cons, ← List.map_cons, ih]

/-- C2: for every valid request (rectangular grid, both endpoints free
vertices) whose start and end cells are 8-connectivity-reachable from each
other through free cells, `find_path` returns a non-empty sequence whose
first element is the start cell and whose last element is the end cell. -/
theorem C2_reachable_path (m : LidarMap) (s e : Cell)
    (_hrect : Rectangular m.map) (hs : s ∈ keys m.map) (he : e ∈ keys m.map)
    (hr : Reachable m.map s e) :
    ∃ p rf', find_path (RoadFinder.init m s e) = Except.ok (p, rf') ∧
      p ≠ [] ∧ p.head? = some s ∧ p.getLast? = some e := by
  have hks : keys m.map ≠ [] := fun h0 => by
    rw [h0] at hs
    exact absurd hs (List.not_mem_nil s)
  rw [find_path_bf hks]
  unfold bellman_ford
  rw [if_pos (show (RoadFinder.init m s e).starting_point ∈ keys m.map ∧
    (RoadFinder.init m s e).ending_point ∈ keys m.map from ⟨hs, he⟩)]
  have hsp : (RoadFinder.init m s e).starting_point = s := rfl
  have hep : (RoadFinder.init m s e).ending_point = e := rfl
  rw [hsp, hep]
  have hfin : nthD (bf_state (graphOf m.map) (ewsOf m.map)
      (list_index (keys m.map) s)).1 (list_index (keys m.map) e) none ≠ none :=
    reachable_finite hs hr
  rw [if_neg hfin]
  have hinv : BFInv (list_index (keys m.map) s) (graphOf m.map).length
      (bf_state (graphOf m.map) (ewsOf m.map) (list_index (keys m.map) s)) :=
    bf_state_inv m.map (list_index (keys m.map) s)
  have heilt : list_index (keys m.map) e < (graphOf m.map).length := by
    rw [graphOf_length]
    exact list_index_lt he
  have hdsc : dsc (bf_state (graphOf m.map) (ewsOf m.map)
      (list_index (keys m.map) s)) (graphOf m.map).length
      (list_index (keys m.map) e) < (graphOf m.map).length + 1 := by
    have := @dsc_le (bf_state (graphOf m.map) (ewsOf m.map)
      (list_index (keys m.map) s)) (graphOf m.map).length
      (list_index (keys m.map) e)
    omega
  rcases reconstructLoop_ok hinv ((graphOf m.map).length + 1)
      (list_index (keys m.map) e) [] heilt hfin hdsc with ⟨mid, hres, hprop⟩
  rw [List.append_nil] at hres
  rw [hres]
  refine ⟨_, _, rfl, ?_, ?_, ?_⟩
  · simp
  · have hval : nthD (keys m.map) (list_index (keys m.map) s) cell0 = s :=
      list_index_nthD hs cell0
    simp [hval]
  · have hvale : nthD (keys m.map) (list_index (keys m.map) e) cell0 = e :=
      list_index_nthD he cell0
    rcases hprop with ⟨hmid, hsie⟩ | hlast
    · rw [hmid]
      rw [hsie] at hvale
      simp [hvale]
    · rw [getLast?_of_map]
      rw [getLast?_cons_some _ hlast]
      simp [hvale]

/-- C3: for every valid request whose end cell is not reachable from the
start cell through free cells, `find_path` returns the empty sequence and
raises no error (`Except.ok`), leaving the planner unchanged. -/
theorem C3_unreachable_empty (m : LidarMap) (s e : Cell)
    (_hrect : Rectangular m.map) (hs : s ∈ keys m.map) (he : e ∈ keys m.map)
    (hnr : ¬Reachable m.map s e) :
    find_path (RoadFinder.init m s e) = Except.ok ([], RoadFinder.init m s e) := by
  have hks : keys m.map ≠ [] := fun h0 => by
    rw [h0] at hs
    exact absurd hs (List.not_mem_nil s)
  rw [find_path_bf hks]
  unfold bellman_ford
  rw [if_pos (show (RoadFinder.init m s e).starting_point ∈ keys m.map ∧
    (RoadFinder.init m s e).ending_point ∈ keys m.map from ⟨hs, he⟩)]
  rw [show (RoadFinder.init m s e).starting_point = s from rfl,
    show (RoadFinder.init m s e).ending_point = e from rfl]
  have hfin : nthD (bf_state (graphOf m.map) (ewsOf m.map)
      (list_index (keys m.map) s)).1 (list_index (keys m.map) e) none = none := by
    by_contra hf
    apply hnr
    have hrv := bf_state_rinv hs (list_index (keys m.map) e)
      (list_index_lt he) hf
    rwa [list_index_nthD he cell0] at hrv
  rw [if_pos hfin]

/-- C7: for every valid request with `start == end`, `find_path` returns
exactly the single-element sequence `[start]`. -/
theorem C7_trivial_path (m : LidarMap) (s : Cell) (_hrect : Rectangular m.map)
    (hs : s ∈ keys m.map) :
    ∃ rf', find_path (RoadFinder.init m s s) = Except.ok ([s], rf') := by
  have hks : keys m.map ≠ [] := fun h0 => by
    rw [h0] at hs
    exact absurd hs (List.not_mem_nil s)
  rw [find_path_bf hks]
  unfold bellman_ford
  rw [if_pos (show (RoadFinder.init m s s).starting_point ∈ keys m.map ∧
    (RoadFinder.init m s s).ending_point ∈ keys m.map from ⟨hs, hs⟩)]
  rw [show (RoadFinder.init m s s).starting_point = s from rfl,
    show (RoadFinder.init m s s).ending_point = s from rfl]
  have hfin : nthD (bf_state (graphOf m.map) (ewsOf m.map)
      (list_index (keys m.map) s)).1 (list_index (keys m.map) s) none ≠ none := by
    rw [bf_state_eq_passesK]
    apply passesK_finite_mono
    have hsi : list_index (keys m.map) s < (graphOf m.map).length := by
      rw [graphOf_length]
      exact list_index_lt hs
    unfold bfInit
    rw [nthD_set_self _ none (by rw [List.length_replicate]; exact hsi)]
    simp
  rw [if_neg hfin]
  have hloop : reconstructLoop (bf_state (graphOf m.map) (ewsOf m.map)
      (list_index (keys m.map) s)).2 (list_index (keys m.map) s)
      ((graphOf m.map).length + 1) ((list_index (keys m.map) s : Nat) : Int) []
      = some [((list_index (keys m.map) s : Nat) : Int)] := by
    simp [reconstructLoop]
  rw [hloop]
  have hval : nthD (keys m.map) (list_index (keys m.map) s) cell0 = s :=
    list_index_nthD hs cell0
  refine ⟨RoadFinder.mk m.map s s
    [nthD (keys m.map) (list_index (keys m.map) s) cell0], ?_⟩
  show Except.ok ([nthD (keys m.map) (list_index (keys m.map) s) cell0],
      RoadFinder.mk m.map s s
        [nthD (keys m.map) (list_index (keys m.map) s) cell0])
    = Except.ok ([s], RoadFinder.mk m.map s s
        [nthD (keys m.map) (list_index (keys m.map) s) cell0])
  rw [hval]

/-- C4 (amended): the planner's constructor performs no endpoint
validation; it is the first step of `find_path` (inside the Bellman-Ford
stage) that rejects a start or end cell that is not a free vertex, raising
`ValueError("Starting or ending point is not in the lidar map")`, provided
the grid has at least one free cell (otherwise graph construction fails
first). -/
theorem C4_validation_in_find_path (m : LidarMap) (s e : Cell)
    (_hrect : Rectangular m.map) (hks : keys m.map ≠ [])
    (hbad : s ∉ keys m.map ∨ e ∉ keys m.map) :
    RoadFinder.init m s e
        = { lidar_map := m.map, starting_point := s, ending_point := e,
            path := [] } ∧
      find_path (RoadFinder.init m s e)
        = Except.error "Starting or ending point is not in the lidar map" := by
  refine ⟨rfl, ?_⟩
  rw [find_path_bf hks]
  unfold bellman_ford
  rw [if_neg (show ¬((RoadFinder.init m s e).starting_point ∈ keys m.map ∧
      (RoadFinder.init m s e).ending_point ∈ keys m.map) from fun hc =>
    hbad.elim (fun hb => hb hc.1) (fun hb => hb hc.2))]

/-- C10: whenever `find_path` returns the empty sequence, the planner's
stored `path` attribute (and hence the textual rendering) is unchanged:
`self.path` is assigned only when a non-empty path is reconstructed. -/
theorem C10_empty_keeps_path (rf : RoadFinder) (p : List Cell)
    (rf' : RoadFinder) (hok : find_path rf = Except.ok (p, rf'))
    (hp : p = []) :
    rf' = rf ∧ rf'.path = rf.path ∧
      RoadFinder.render rf' = RoadFinder.render rf := by
  have hrf : rf' = rf := by
    unfold find_path at hok
    split at hok
    · exact absurd hok (by simp)
    · unfold bellman_ford at hok
      split at hok
      · split at hok
        · simp only [Except.ok.injEq, Prod.mk.injEq] at hok
          exact hok.2.symm
        · split at hok
          · exact absurd hok (by simp)
          · simp only [Except.ok.injEq, Prod.mk.injEq] at hok
            exact hok.2.symm
          · rename_i idxs hcond heq
            simp only [Except.ok.injEq, Prod.mk.injEq] at hok
            exact absurd (by simpa using hok.1.trans hp) hcond
      · exact absurd hok (by simp)
  exact ⟨hrf, by rw [hrf], by rw [hrf]⟩

/-- C5: for a rectangular grid, a free cell `u` and an 8-neighbour `v`, the
built graph has the directed edge from `u`'s vertex to `v`'s vertex iff `v`
lies within the grid bounds and is free.  No corner-cutting check is made:
the condition does not mention the two orthogonally-adjacent cells, so a
diagonal edge exists even when both corner cells are blocked (the witness
instantiates exactly that situation). -/
theorem C5_edge_iff (g : Grid) (hrect : Rectangular g) (u v : Cell)
    (hu : u ∈ keys g) (hnbr : isNbr u v) :
    list_index (keys g) v ∈ nthD (graphOf g) (list_index (keys g) u) [] ↔
      inBounds g v ∧ freeCell g v := by
  constructor
  · intro hmem
    rcases row_hasEdge (list_index_lt hu) hmem with ⟨hvl, _, _⟩
    exact (mem_keys_iff_rect hrect).1 (mem_of_list_index_lt hvl)
  · rintro ⟨hbv, hfv⟩
    have hv : v ∈ keys g := (mem_keys_iff_rect hrect).2 ⟨hbv, hfv⟩
    have hdveq : ((u.1 + (v.1 - u.1), u.2 + (v.2 - u.2)) : Cell) = v := by
      obtain ⟨u1, u2⟩ := u
      obtain ⟨v1, v2⟩ := v
      simp only [Prod.mk.injEq]
      constructor
      · ring
      · ring
    have hedge : hasEdge g u v := by
      refine ⟨(v.1 - u.1, v.2 - u.2), hnbr, hdveq.symm, hv, ?_⟩
      rw [is_path_clear_iff,
        show ((u.1 + (v.1 - u.1), u.2 + (v.2 - u.2)) : Cell) = v from hdveq]
      exact ⟨hbv, hfv⟩
    exact hasEdge_row hu hedge

/-- C6: every entry of the built edge-weight table has weight exactly `1`
when the move between its two endpoint cells is axis-aligned and exactly
`√2` when it is diagonal, and every weight is positive. -/
theorem C6_edge_weights (g : Grid) (p : (Nat × Nat) × W) (hp : p ∈ ewsOf g) :
    0 < toReal p.2 ∧
      (((nthD (keys g) p.1.2 cell0).1 - (nthD (keys g) p.1.1 cell0).1).natAbs +
          ((nthD (keys g) p.1.2 cell0).2 - (nthD (keys g) p.1.1 cell0).2).natAbs
            = 1 →
        toReal p.2 = 1) ∧
      (((nthD (keys g) p.1.2 cell0).1 - (nthD (keys g) p.1.1 cell0).1).natAbs +
          ((nthD (keys g) p.1.2 cell0).2 - (nthD (keys g) p.1.1 cell0).2).natAbs
            ≠ 1 →
        toReal p.2 = Real.sqrt 2) := by
  unfold ewsOf at hp
  rw [List.mem_flatten] at hp
  rcases hp with ⟨row, hrow, hpmem⟩
  rw [List.mem_map] at hrow
  rcases hrow with ⟨ic, hic, rfl⟩
  rcases eq_of_mem_enumFromN cell0 hic with ⟨i, hi, hic1, hic2⟩
  unfold rowEdges at hpmem
  rw [List.mem_filterMap] at hpmem
  rcases hpmem with ⟨d, _, hsome⟩
  by_cases hg : ((ic.2.1 + d.1, ic.2.2 + d.2) : Cell) ∈ keys g ∧
      is_path_clear g ic.2 d.1 d.2 = true
  swap
  · rw [if_neg hg] at hsome
    exact absurd hsome (by simp)
  rw [if_pos hg] at hsome
  have hpeq : p = ((ic.1, list_index (keys g) (ic.2.1 + d.1, ic.2.2 + d.2)),
      moveWeight d.1 d.2) := (Option.some.inj hsome).symm
  have hc1 : nthD (keys g) p.1.1 cell0 = ic.2 := by
    rw [hpeq]
    show nthD (keys g) ic.1 cell0 = ic.2
    rw [hic1, Nat.zero_add, hic2]
  have hc2 : nthD (keys g) p.1.2 cell0 = (ic.2.1 + d.1, ic.2.2 + d.2) := by
    rw [hpeq]
    exact list_index_nthD hg.1 cell0
  have hd1 : (nthD (keys g) p.1.2 cell0).1 - (nthD (keys g) p.1.1 cell0).1
      = d.1 := by
    rw [hc1, hc2]
    ring
  have hd2 : (nthD (keys g) p.1.2 cell0).2 - (nthD (keys g) p.1.1 cell0).2
      = d.2 := by
    rw [hc1, hc2]
    ring
  have hw : p.2 = moveWeight d.1 d.2 := by rw [hpeq]
  rw [hd1, hd2, hw]
  unfold moveWeight
  by_cases hax : d.1.natAbs + d.2.natAbs = 1
  · rw [if_pos hax, toReal_one]
    exact ⟨by norm_num, fun _ => rfl, fun hne => absurd hax hne⟩
  · rw [if_neg hax, toReal_diag]
    exact ⟨sqrt2_pos, fun hone => absurd hone hax, fun _ => rfl⟩

/-- C8: a grid with zero free cells makes graph construction fail with the
`ValueError` raised in `__create_graph` (the spec's `InvalidMapError` kind)
instead of returning a result. -/
theorem C8_no_free_cells (g : Grid) (h : keys g = []) :
    create_graph g = Except.error "No valid path in the lidar map" := by
  unfold create_graph
  rw [if_pos (by rw [h]; rfl)]

/-- C9 (counterexample): the `stop` command asserts no output line at all:
`update_output STOP` drives all four pins low (and prints no diagnostic),
so "exactly one corresponding output line high" is false for `stop`. -/
theorem C9_counterexample :
    update_output STOP
        = ([(GO_FORWARD, false), (GO_LEFT, false), (GO_RIGHT, false),
            (GO_BACKWARD, false)], false) ∧
      ((update_output STOP).1.filter (fun pv => pv.2)).length = 0 :=
  ⟨by decide, by decide⟩

/-- C9 (amended): `update_output` drives, for each of the four directional
commands, exactly the corresponding line high and the others low with no
diagnostic; for `stop` and for any unrecognized command it drives all lines
low, with a diagnostic exactly when the command is neither a pin code nor
`STOP`. -/
theorem C9_output_lines (c : Int) :
    update_output c
      = (pins.map (fun p => (p, decide (p = c))),
        decide (c ∉ pins ∧ c ≠ STOP)) := by
  by_cases hc : c ∈ pins
  · have h4 : c = GO_FORWARD ∨ c = GO_LEFT ∨ c = GO_RIGHT ∨ c = GO_BACKWARD := by
      simpa [pins] using hc
    rcases h4 with rfl | rfl | rfl | rfl <;> decide
  · by_cases hstop : c = STOP
    · rw [hstop]
      decide
    · unfold update_output
      rw [if_neg hc, if_pos hstop]
      have hpin : ∀ p ∈ pins, ((p, LOW) : Int × Bool) = (p, decide (p = c)) := by
        intro p hp
        have : ¬(p = c) := fun hpc => hc (hpc ▸ hp)
        simp [LOW, this]
      refine congrArg₂ Prod.mk ?_ ?_
      · exact List.map_congr_left hpin
      · simp [hc, hstop]

set_option maxRecDepth 20000

/-- C1: on the three specified scenario inputs, `find_path` returns exactly
the paths listed in the spec (scenario A: the top route around the wall;
scenario B: down, diagonal and right; scenario C: the double diagonal). -/
theorem C1_scenarios :
    (find_path (RoadFinder.init ⟨[[0, 0, 0, 0], [0, 1, 1, 0], [0, 0, 0, 0]]⟩
        (0, 0) (2, 3))).map Prod.fst
        = Except.ok [(0, 0), (0, 1), (0, 2), (1, 3), (2, 3)] ∧
      (find_path (RoadFinder.init ⟨[[0, 0, 0], [0, 1, 1], [0, 0, 0]]⟩
        (0, 0) (2, 2))).map Prod.fst
        = Except.ok [(0, 0), (1, 0), (2, 1), (2, 2)] ∧
      (find_path (RoadFinder.init ⟨[[0, 1, 0], [0, 0, 0], [0, 0, 0]]⟩
        (0, 0) (2, 2))).map Prod.fst
        = Except.ok [(0, 0), (1, 1), (2, 2)] :=
  ⟨by decide, by decide, by decide⟩

/-- C4 (counterexample): constructing a planner whose start cell `(0, 1)`
is blocked succeeds and returns an ordinary planner object; no
`InvalidEndpointError` (nor any error) is raised before `find_path` is
called — the `ValueError` surfaces only from the `find_path` call itself. -/
theorem C4_counterexample :
    RoadFinder.init ⟨[[0, 1]]⟩ (0, 1) (0, 0)
        = RoadFinder.mk [[0, 1]] (0, 1) (0, 0) [] ∧
      find_path (RoadFinder.init ⟨[[0, 1]]⟩ (0, 1) (0, 0))
        = Except.error "Starting or ending point is not in the lidar map" :=
  ⟨rfl, by decide⟩

/-- Witness for C2 at a concrete reachable instance. -/
theorem C2_reachable_path_witness :
    Rectangular [[0, 0]] ∧ ((0 : Int), (0 : Int)) ∈ keys [[0, 0]] ∧
      ((0 : Int), (1 : Int)) ∈ keys [[0, 0]] ∧
      ∃ p rf', find_path (RoadFinder.init ⟨[[0, 0]]⟩ (0, 0) (0, 1))
          = Except.ok (p, rf') ∧ p ≠ [] ∧
          p.head? = some ((0 : Int), (0 : Int)) ∧
          p.getLast? = some ((0 : Int), (1 : Int)) :=
  ⟨by decide, by decide, by decide,
    C2_reachable_path ⟨[[0, 0]]⟩ (0, 0) (0, 1) (by decide) (by decide)
      (by decide) (Relation.ReflTransGen.single (by decide))⟩

/-- Witness for C3 at a concrete split grid. -/
theorem C3_unreachable_empty_witness :
    Rectangular [[0, 1, 0]] ∧ ((0 : Int), (0 : Int)) ∈ keys [[0, 1, 0]] ∧
      ((0 : Int), (2 : Int)) ∈ keys [[0, 1, 0]] ∧
      find_path (RoadFinder.init ⟨[[0, 1, 0]]⟩ (0, 0) (0, 2))
        = Except.ok ([], RoadFinder.init ⟨[[0, 1, 0]]⟩ (0, 0) (0, 2)) := by
  have hnr : ¬Reachable [[0, 1, 0]] (0, 0) (0, 2) := by
    intro hr
    rcases Relation.ReflTransGen.cases_head hr with heq | ⟨b, hedge, _⟩
    · exact absurd heq (by decide)
    · rcases hedge with ⟨d, hd, hb, hbk, _⟩
      simp only [neighborOffsets, List.mem_cons, List.not_mem_nil,
        or_false] at hd
      rcases hd with rfl | rfl | rfl | rfl | rfl | rfl | rfl | rfl <;>
        subst hb <;> exact absurd hbk (by decide)
  exact ⟨by decide, by decide, by decide,
    C3_unreachable_empty ⟨[[0, 1, 0]]⟩ (0, 0) (0, 2) (by decide) (by decide)
      (by decide) hnr⟩

/-- Witness for C7 at a concrete trivial request. -/
theorem C7_trivial_path_witness :
    Rectangular [[0, 0]] ∧ ((0 : Int), (0 : Int)) ∈ keys [[0, 0]] ∧
      ∃ rf', find_path (RoadFinder.init ⟨[[0, 0]]⟩ (0, 0) (0, 0))
        = Except.ok ([((0 : Int), (0 : Int))], rf') :=
  ⟨by decide, by decide,
    C7_trivial_path ⟨[[0, 0]]⟩ (0, 0) (by decide) (by decide)⟩

/-- Witness for the amended C4 at a concrete blocked start. -/
theorem C4_validation_in_find_path_witness :
    Rectangular [[0, 1]] ∧ keys [[0, 1]] ≠ [] ∧
      (((0 : Int), (1 : Int)) ∉ keys [[0, 1]] ∨
        ((0 : Int), (0 : Int)) ∉ keys [[0, 1]]) ∧
      find_path (RoadFinder.init ⟨[[0, 1]]⟩ (0, 1) (0, 0))
        = Except.error "Starting or ending point is not in the lidar map" :=
  ⟨by decide, by decide, Or.inl (by decide),
    (C4_validation_in_find_path ⟨[[0, 1]]⟩ (0, 1) (0, 0) (by decide)
      (by decide) (Or.inl (by decide))).2⟩

/-- Witness for C5 at the corner-cutting instance: the diagonal edge from
`(0,0)` to `(1,1)` in `[[0,1],[1,0]]` exists although both orthogonal
corner cells are blocked. -/
theorem C5_edge_iff_witness :
    Rectangular [[0, 1], [1, 0]] ∧
      ((0 : Int), (0 : Int)) ∈ keys [[0, 1], [1, 0]] ∧
      isNbr (0, 0) (1, 1) ∧
      list_index (keys [[0, 1], [1, 0]]) ((1 : Int), (1 : Int))
        ∈ nthD (graphOf [[0, 1], [1, 0]])
          (list_index (keys [[0, 1], [1, 0]]) ((0 : Int), (0 : Int))) [] ∧
      (list_index (keys [[0, 1], [1, 0]]) ((1 : Int), (1 : Int))
          ∈ nthD (graphOf [[0, 1], [1, 0]])
            (list_index (keys [[0, 1], [1, 0]]) ((0 : Int), (0 : Int))) [] ↔
        inBounds [[0, 1], [1, 0]] (1, 1) ∧ freeCell [[0, 1], [1, 0]] (1, 1)) :=
  ⟨by decide, by decide, by decide, by decide,
    C5_edge_iff [[0, 1], [1, 0]] (by decide) (0, 0) (1, 1) (by decide)
      (by decide)⟩

/-- Witness for C6 at a concrete axis-aligned entry. -/
theorem C6_edge_weights_witness :
    ((((0 : Nat), (1 : Nat)), ((1 : Nat), (0 : Nat))) ∈ ewsOf [[0, 0]]) ∧
      0 < toReal ((1 : Nat), (0 : Nat)) :=
  ⟨by decide, (C6_edge_weights [[0, 0]] ((0, 1), (1, 0)) (by decide)).1⟩

/-- Witness for C8 at a fully blocked grid. -/
theorem C8_no_free_cells_witness :
    keys [[1]] = [] ∧
      create_graph [[1]] = Except.error "No valid path in the lidar map" :=
  ⟨rfl, C8_no_free_cells [[1]] rfl⟩

/-- Witness for C10 at a concrete unreachable request. -/
theorem C10_empty_keeps_path_witness :
    find_path (RoadFinder.init ⟨[[0, 1, 0]]⟩ (0, 0) (0, 2))
        = Except.ok ([], RoadFinder.init ⟨[[0, 1, 0]]⟩ (0, 0) (0, 2)) ∧
      (RoadFinder.init ⟨[[0, 1, 0]]⟩ (0, 0) (0, 2)
          = RoadFinder.init ⟨[[0, 1, 0]]⟩ (0, 0) (0, 2) ∧
        (RoadFinder.init ⟨[[0, 1, 0]]⟩ (0, 0) (0, 2)).path
          = (RoadFinder.init ⟨[[0, 1, 0]]⟩ (0, 0) (0, 2)).path ∧
        RoadFinder.render (RoadFinder.init ⟨[[0, 1, 0]]⟩ (0, 0) (0, 2))
          = RoadFinder.render (RoadFinder.init ⟨[[0, 1, 0]]⟩ (0, 0) (0, 2))) :=
  ⟨by decide,
    C10_empty_keeps_path (RoadFinder.init ⟨[[0, 1, 0]]⟩ (0, 0) (0, 2)) []
      (RoadFinder.init ⟨[[0, 1, 0]]⟩ (0, 0) (0, 2)) (by decide) rfl⟩

end Rektora
